import Mathlib

/-!
Verification development for the Tanoshi Narration backend
(`backend/modal_app.py`): a shallow embedding of the job orchestration and
streaming core (job registry, page state machine, rolling-start coordinator,
rate limiter, idempotency gate, snapshot composition, SSE heartbeat loop),
with theorems settling the behavioural claims about it.

Modelling conventions:
- Machine time is modelled as `Nat` time units (seconds in the source).
- The Redis backend is modelled as an association list of typed keys with
  optional absolute expiry; lazy expiry (`now < expiry`) is observationally
  equivalent to server-side expiry.
- The SHA-256 idempotency digest is modelled by the canonical payload itself
  (a typed key) — the digest is a deterministic injective stand-in.
- Python `asyncio` cooperative scheduling is modelled by a small-step
  transition system whose atomic steps are the blocks of code between
  `await` suspension points.
-/

namespace Tanoshi

/-- Page lifecycle states, mirroring the `state` field of `PageState` in the
source (`queued|extracting|tts|ready|error`). -/
inductive PState
  | queued
  | extracting
  | tts
  | ready
  | error
deriving DecidableEq

/-- Position of a page state in the forward order
`queued → extracting → tts → (ready | error)`; the two terminal states share
the last position. -/
def PState.rank : PState → Nat
  | .queued => 0
  | .extracting => 1
  | .tts => 2
  | .ready => 3
  | .error => 3

/-- One page state may legally follow another ("no regression"): the rank
never decreases and a page never switches between the two terminal states. -/
def fwd (s t : PState) : Bool :=
  decide (s.rank ≤ t.rank)
    && !(s == PState.ready && t == PState.error)
    && !(s == PState.error && t == PState.ready)

/-- Mirrors the `PageState` dataclass (the immutable `index`, mutable
`state`, optional `audio` reference and optional failure `reason`). -/
structure Page where
  index : Nat
  state : PState
  audio : Option String
  reason : Option String
deriving DecidableEq

/-- Events pushed into a job's `asyncio.Queue`.  The source enqueues
SSE-formatted strings; we keep the event payloads structurally.  The float
`duration` payload of `page_ready` (constant `12.3`) is not modelled. -/
inductive Event
  | pageStatus (index : Int) (state : PState)
  | pageReady (index : Nat) (audio : String)
  | progress (done total : Nat)
  | jobDone
deriving DecidableEq

/-- Zero-padding to three digits, mirroring Python's `f"{i:03d}"`. -/
def pad3 (n : Nat) : String :=
  if n < 10 then "00" ++ toString n
  else if n < 100 then "0" ++ toString n
  else toString n

/-- Audio reference recorded on a ready page, mirroring
`f"/v1/narration/jobs/{job_id}/audio/page-{i:03d}/index.m3u8"`. -/
def audioRef (jobId : String) (i : Nat) : String :=
  "/v1/narration/jobs/" ++ jobId ++ "/audio/page-" ++ pad3 i ++ "/index.m3u8"

/-- Mirrors the `JobState` dataclass.  The `created_at`/`updated_at`
timestamps are not modelled (no claim in scope mentions them); the page dict
`Dict[int, PageState]`, whose keys are exactly `0..total-1` from creation on,
is modelled as a list of length `total` indexed positionally. -/
structure JobState where
  jobId : String
  total : Nat
  done : Nat
  pages : List Page
  events : List Event
  uploadedPages : Finset Int
  magiStartEvent : Bool
deriving DecidableEq

/-- Job creation as done by `session_start`: `total` pages, all `queued`,
`done = 0`, empty queue, no uploads, latch unset. -/
def mkJob (jobId : String) (total : Nat) : JobState :=
  { jobId := jobId
    total := total
    done := 0
    pages := (List.range total).map fun i =>
      { index := i, state := .queued, audio := none, reason := none }
    events := []
    uploadedPages := ∅
    magiStartEvent := false }

/-- Number of pages currently in state `ready`. -/
def countReady (l : List Page) : Nat :=
  l.countP fun p => p.state == PState.ready

/-- Python's substring test `needle in hay` on lists of characters. -/
def listContains (hay needle : List Char) : Bool :=
  match hay with
  | [] => needle.isEmpty
  | _ :: t => needle.isPrefixOf hay || listContains t needle

/-- Python's `str.lower()` as a list of characters (kept on `List Char`
so that concrete instances evaluate inside the kernel). -/
def lowerChars (s : String) : List Char :=
  s.toList.map Char.toLower

/-- The content-type gate of `upload_page`:
`"image/png" not in request.headers.get("content-type", "").lower()`. -/
def ctypeOk (ctype : String) : Bool :=
  listContains (lowerChars ctype) "image/png".toList

/-- Maximum upload body size (`max_bytes = 3_000_000`). -/
def MAX_PNG_BYTES : Nat := 3000000

/-- Rolling-start threshold default (`MAGI_START_AFTER_N_PAGES`, default 4);
theorems take the threshold as a parameter `th`. -/
def DEFAULT_MAGI_START_AFTER_N_PAGES : Nat := 4

/-- HTTP outcome of `upload_page` after the job lookup succeeded. -/
inductive UploadResp
  | unsupportedMediaType
  | payloadTooLarge
  | okResp
deriving DecidableEq

/-- Result of one `upload_page` call: the updated job, the response, and
whether `_persist_snapshot` was invoked. -/
structure UploadOut where
  job : JobState
  resp : UploadResp
  persisted : Bool
deriving DecidableEq

/-- Dict lookup `job.pages.get(page_index)`: the dict's keys are exactly
`0..total-1`, so the lookup succeeds iff the (possibly negative) index is in
range. -/
def pageLookup (j : JobState) (idx : Int) : Option Page :=
  if idx < 0 then none else j.pages.get? idx.toNat

/-- Shallow embedding of the body of `upload_page` (after the 404 job
lookup), for a job `job`, path index `idx`, request content type and body
length; `th` is `MAGI_START_AFTER_N_PAGES`.  Mirrors, in order: the 415
content-type gate, the 413 size gate, recording the index in
`uploaded_pages`, signalling `magi_start_event` once
`min(th, total)` distinct indices have been uploaded, and — only when the
index is a key of the page dict — the unconditional transition of that page
to `extracting`, the `page_status` event, and the snapshot persist. -/
def uploadPage (th : Nat) (job : JobState) (idx : Int) (ctype : String)
    (bodyLen : Nat) : UploadOut :=
  if !ctypeOk ctype then ⟨job, .unsupportedMediaType, false⟩
  else if bodyLen > MAX_PNG_BYTES then ⟨job, .payloadTooLarge, false⟩
  else
    let up := insert idx job.uploadedPages
    let latch := if min th job.total ≤ up.card then true else job.magiStartEvent
    let j1 := { job with uploadedPages := up, magiStartEvent := latch }
    match pageLookup j1 idx with
    | some p =>
        ⟨{ j1 with
            pages := j1.pages.set idx.toNat { p with state := .extracting }
            events := j1.events ++ [.pageStatus idx .extracting] },
          .okResp, true⟩
    | none => ⟨j1, .okResp, false⟩

/-- One entry of a composed snapshot (`{index, state, audio?, reason?}`). -/
structure SnapPage where
  index : Nat
  state : PState
  audio : Option String
  reason : Option String
deriving DecidableEq

/-- A composed snapshot: job id, per-page entries, and `{done, total}`. -/
structure Snapshot where
  jobId : String
  pages : List SnapPage
  done : Nat
  total : Nat
deriving DecidableEq

/-- Fallback page for the (unreachable, see `composeSnapshot`) case of a
missing dict key. -/
def defaultPage : Page :=
  { index := 0, state := .queued, audio := none, reason := none }

/-- Shallow embedding of `_compose_snapshot`: iterates `i in range(total)`
and reads `job.pages[i]`.  In every reachable job `pages` has length
`total`, so the `getD` default is never used. -/
def composeSnapshot (j : JobState) : Snapshot :=
  { jobId := j.jobId
    pages := (List.range j.total).map fun i =>
      let p := j.pages.getD i defaultPage
      { index := p.index, state := p.state, audio := p.audio, reason := p.reason }
    done := j.done
    total := j.total }

/-- Ready count of a snapshot's page list. -/
def snapCountReady (s : Snapshot) : Nat :=
  s.pages.countP fun p => p.state == PState.ready

example : ctypeOk "image/png" = true := by decide
example : ctypeOk "image/jpeg" = false := by decide
example : ctypeOk "IMAGE/PNG; charset=binary" = true := by decide
example : ctypeOk "fake-image/png" = true := by decide
example : (mkJob "j" 3).pages.length = 3 := by decide

/-!
## The pipeline task as a small-step system

`_process_job` (together with `_run_magi_for_job`) runs on the cooperative
`asyncio` scheduler: between two `await` suspension points its code runs
atomically.  We model the task's progress with a program counter over those
atomic blocks; concurrent `upload_page` calls and the 60-second
`asyncio.wait_for` timeout are the other actions that can interleave.
-/

/-- Program counter of the pipeline task, one position per atomic block
between suspension points of `_process_job` / `_run_magi_for_job`:
emitting the initial `queued` statuses (one `queue.put` each), the
rolling-start wait, and then for each page the `extracting` transition, the
`tts` transition, the `ready` transition (with `done += 1` and the
`page_ready` event) and the `progress` emission + snapshot persist. -/
inductive PC
  | emitQueued (k : Nat)
  | waitStart
  | procExtract (i : Nat)
  | procTts (i : Nat)
  | procReady (i : Nat)
  | procProgress (i : Nat)
  | emitDone
  | finished
deriving DecidableEq

/-- A job together with its pipeline task's control position and whether the
60-second rolling-start timeout has fired. -/
structure Config where
  job : JobState
  pc : PC
  timedOut : Bool
deriving DecidableEq

/-- Configuration of a freshly created job whose pipeline task was just
spawned by `session_start`. -/
def initConfig (jobId : String) (total : Nat) : Config :=
  { job := mkJob jobId total, pc := .emitQueued 0, timedOut := false }

/-- Actions that can interleave at a suspension point: the pipeline task
running its next atomic block, the `asyncio.wait_for` timeout firing, or an
`upload_page` request (with its content type and body length) executing its
handler. -/
inductive Act
  | pipe
  | fireTimeout
  | upload (idx : Int) (ctype : String) (bodyLen : Nat)

/-- The pipeline task's next atomic block, if one is enabled.  The
`waitStart` block mirrors `_run_magi_for_job`: the task proceeds past the
wait exactly when enough distinct pages have been uploaded
(`len(uploaded_pages) >= min(MAGI_START_AFTER_N_PAGES, total)`), or the
`magi_start_event` latch is set, or the 60-second timeout has fired. -/
def pipeStep (th : Nat) (c : Config) : Option Config :=
  match c.pc with
  | .emitQueued k =>
      if k < c.job.total then
        some { c with
          job := { c.job with
            events := c.job.events ++ [.pageStatus k .queued] }
          pc := .emitQueued (k + 1) }
      else
        some { c with pc := .waitStart }
  | .waitStart =>
      if min th c.job.total ≤ c.job.uploadedPages.card
          || c.job.magiStartEvent || c.timedOut then
        some { c with pc := if 0 < c.job.total then .procExtract 0 else .emitDone }
      else none
  | .procExtract i =>
      match c.job.pages.get? i with
      | some p =>
          some { c with
            job := { c.job with
              pages := c.job.pages.set i { p with state := .extracting }
              events := c.job.events ++ [.pageStatus i .extracting] }
            pc := .procTts i }
      | none => none
  | .procTts i =>
      match c.job.pages.get? i with
      | some p =>
          some { c with
            job := { c.job with
              pages := c.job.pages.set i { p with state := .tts }
              events := c.job.events ++ [.pageStatus i .tts] }
            pc := .procReady i }
      | none => none
  | .procReady i =>
      match c.job.pages.get? i with
      | some p =>
          some { c with
            job := { c.job with
              pages := c.job.pages.set i
                { p with state := .ready, audio := some (audioRef c.job.jobId i) }
              done := c.job.done + 1
              events := c.job.events ++ [.pageReady i (audioRef c.job.jobId i)] }
            pc := .procProgress i }
      | none => none
  | .procProgress i =>
      some { c with
        job := { c.job with
          events := c.job.events ++ [.progress c.job.done c.job.total] }
        pc := if i + 1 < c.job.total then .procExtract (i + 1) else .emitDone }
  | .emitDone =>
      some { c with
        job := { c.job with events := c.job.events ++ [.jobDone] }
        pc := .finished }
  | .finished => none

/-- One interleaving step of the whole system. -/
def stepFn (th : Nat) (c : Config) : Act → Option Config
  | .pipe => pipeStep th c
  | .fireTimeout => some { c with timedOut := true }
  | .upload idx ctype bodyLen =>
      some { c with job := (uploadPage th c.job idx ctype bodyLen).job }

/-- Runs a list of interleaving actions from a configuration; `none` when
some action is not enabled. -/
def runTrace (th : Nat) (c : Config) : List Act → Option Config
  | [] => some c
  | a :: rest =>
      match stepFn th c a with
      | some c' => runTrace th c' rest
      | none => none

/-- A trace is valid when every action in it is enabled. -/
def validTrace (th : Nat) (c : Config) (acts : List Act) : Bool :=
  (runTrace th c acts).isSome

/-- State of page `i` in a configuration (`defaultPage` is never consulted
for in-range indices of well-formed jobs). -/
def pageStateAt (c : Config) (i : Nat) : PState :=
  (c.job.pages.getD i defaultPage).state

/-- Sequence of states taken by page `i` along a trace: the state at the
start plus the state after each valid step. -/
def stateSeq (th : Nat) (c : Config) (acts : List Act) (i : Nat) : List PState :=
  pageStateAt c i ::
    match acts with
    | [] => []
    | a :: rest =>
        match stepFn th c a with
        | some c' => stateSeq th c' rest i
        | none => []

/-- Whether an `upload_page` call with these arguments reaches the
`page.state = "extracting"` branch (both validation gates pass and the index
is a key of the page dict). -/
def uploadMutates (c : Config) (idx : Int) (ctype : String) (bodyLen : Nat) : Bool :=
  ctypeOk ctype && decide (bodyLen ≤ MAX_PNG_BYTES) && (pageLookup c.job idx).isSome

/-- A trace is tame when every upload that mutates a page targets a page
still in `queued` or `extracting` state (no "late" uploads to pages the
pipeline has already moved to `tts` or a terminal state). -/
def tameTrace (th : Nat) (c : Config) : List Act → Bool
  | [] => true
  | a :: rest =>
      (match a with
        | .upload idx ctype bodyLen =>
            !(uploadMutates c idx ctype bodyLen) ||
              decide ((pageStateAt c idx.toNat).rank ≤ 1)
        | _ => true)
      &&
      (match stepFn th c a with
        | some c' => tameTrace th c' rest
        | none => true)

example :
    runTrace 4 (initConfig "j" 2)
      [.pipe, .pipe, .pipe, .fireTimeout, .pipe, .pipe, .pipe, .pipe, .pipe,
       .pipe, .pipe, .pipe, .pipe, .pipe] ≠ none := by decide

example :
    stateSeq 4 (initConfig "j" 2)
      [.pipe, .pipe, .pipe, .fireTimeout, .pipe, .pipe, .pipe, .pipe] 0 =
    [.queued, .queued, .queued, .queued, .queued, .queued,
     .extracting, .tts, .ready] := by decide

/-!
## In-memory rate limiter fallback

`_check_rate_limit`, Redis-less branch: a fixed-window counter per
`rl:{kind}:{ip}` key kept in `_RATE_BUCKETS`.  We model the evolution of one
key's bucket.  `true` means the call was allowed (no `HTTPException(429)`).
-/

/-- One `_RATE_BUCKETS` entry: `{"count": ..., "reset_at": ...}`. -/
structure RateBucket where
  count : Nat
  resetAt : Nat
deriving DecidableEq

/-- One call through the in-memory branch of `_check_rate_limit` for a given
bucket: a missing or expired bucket (`now > reset_at`) is replaced by
`{count: 1, reset_at: now + window}` with no check; otherwise the counter is
incremented and the call is denied when it exceeds `max_allowed`. -/
def rateCheckMem (b : Option RateBucket) (now window maxAllowed : Nat) :
    RateBucket × Bool :=
  match b with
  | none => (⟨1, now + window⟩, true)
  | some bk =>
      if bk.resetAt < now then (⟨1, now + window⟩, true)
      else
        let c := bk.count + 1
        (⟨c, bk.resetAt⟩, decide (c ≤ maxAllowed))

/-- A sequence of calls on one key at the given times; returns the final
bucket and the per-call allow/deny outcomes. -/
def runRateMem (b : Option RateBucket) (window maxA : Nat) :
    List Nat → Option RateBucket × List Bool
  | [] => (b, [])
  | t :: ts =>
      let r := rateCheckMem b t window maxA
      let rest := runRateMem (some r.1) window maxA ts
      (rest.1, r.2 :: rest.2)

example : (runRateMem none 60 2 [0, 1, 2]).2 = [true, true, false] := by decide
example : (runRateMem none 60 2 [0, 1, 100, 101]).2 =
    [true, true, true, true] := by decide

/-!
## SSE event stream loop

The `event_stream` generator of `job_events`: each iteration waits up to one
second for a queued event, yields it if one arrived, then emits a
`: keep-alive` comment when more than 15 seconds have passed since the last
one.  An iteration is modelled by the wall-clock time at its heartbeat check
and whether a real event was delivered in it.
-/

/-- Output items of the stream loop, tagged with the time of the iteration
that produced them. -/
inductive SEvent
  | realEv (t : Nat)
  | keep (t : Nat)
deriving DecidableEq

/-- The `while True` body of `event_stream`, iterated over a schedule of
`(now, event_delivered)` pairs, starting from `last_heartbeat = lastHb`.
Note the source updates `last_heartbeat` only when a keep-alive is emitted,
never when a real event is yielded. -/
def streamLoop (lastHb : Nat) : List (Nat × Bool) → List SEvent
  | [] => []
  | (now, got) :: rest =>
      (if got then [SEvent.realEv now] else []) ++
      (if lastHb + 15 < now then SEvent.keep now :: streamLoop now rest
       else streamLoop lastHb rest)

/-- Times of the keep-alive emissions in a stream output. -/
def keepTimes (out : List SEvent) : List Nat :=
  out.filterMap fun e =>
    match e with
    | .keep t => some t
    | _ => none

/-- Times of the real event deliveries in a stream output. -/
def realTimes (out : List SEvent) : List Nat :=
  out.filterMap fun e =>
    match e with
    | .realEv t => some t
    | _ => none

/-- The keep-alive times determined by the iteration times alone: a
keep-alive fires at an iteration iff more than 15 units passed since the
previous keep-alive (or since attach). -/
def hbTimes (lastHb : Nat) : List Nat → List Nat
  | [] => []
  | t :: rest =>
      if lastHb + 15 < t then t :: hbTimes t rest else hbTimes lastHb rest

/-- The property claimed of the stream: a keep-alive is emitted only when no
real event was delivered within the preceding 15 time units. -/
def keepAliveOnlyWhenIdle (out : List SEvent) : Prop :=
  ∀ t ∈ keepTimes out, ∀ s ∈ realTimes out, ¬(s ≤ t ∧ t < s + 15)

instance (out : List SEvent) : Decidable (keepAliveOnlyWhenIdle out) := by
  unfold keepAliveOnlyWhenIdle; infer_instance

/-!
## Redis-backed shared state, idempotency gate, and session handlers

Redis is modelled as an association list from typed keys to values with an
optional absolute expiry; `now < expiry` is live.  The source's string keys
`rl:{kind}:{ip}`, `narration:idemp:{sha256(canonical payload)}` and
`narration:job:{id}:snapshot` use disjoint prefixes, which the typed-key
constructors capture; the SHA-256 digest of the canonical start payload is
modelled by the canonical payload itself (chapter id, window, voice pack
sorted by key).
-/

/-- Typed Redis keys. -/
inductive RKey
  | rl (kind ip : String)
  | idem (chapter : String) (startIndex size : Nat) (vp : List (String × String))
  | snap (jobId : String)
deriving DecidableEq

/-- Redis values: strings (job ids, snapshots) or integer counters. -/
inductive RVal
  | str (s : String)
  | num (n : Nat)
deriving DecidableEq

/-- A stored Redis entry; `expiry = none` means no TTL. -/
structure REntry where
  val : RVal
  expiry : Option Nat
deriving DecidableEq

/-- The Redis database. -/
structure Redis where
  entries : List (RKey × REntry)
deriving DecidableEq

/-- Raw lookup, ignoring expiry. -/
def rlook (r : Redis) (k : RKey) : Option REntry :=
  (r.entries.find? fun e => e.1 == k).map Prod.snd

/-- Whether a stored entry is live at `now`. -/
def rlive (e : REntry) (now : Nat) : Bool :=
  match e.expiry with
  | none => true
  | some t => now < t

/-- Replaces (or creates) the entry under `k`. -/
def rput (r : Redis) (k : RKey) (e : REntry) : Redis :=
  ⟨(k, e) :: r.entries.filter fun kv => kv.1 ≠ k⟩

/-- `GET`: a live entry's value, else absent (lazy expiry). -/
def rget (r : Redis) (k : RKey) (now : Nat) : Option RVal :=
  match rlook r k with
  | some e => if rlive e now then some e.val else none
  | none => none

/-- `SET` (no TTL argument in the source; clears any previous TTL). -/
def rset (r : Redis) (k : RKey) (v : RVal) : Redis :=
  rput r k ⟨v, none⟩

/-- `EXPIRE key ttl`: arms an absolute expiry on a live key, else no-op. -/
def rexpire (r : Redis) (k : RKey) (ttl now : Nat) : Redis :=
  match rlook r k with
  | some e => if rlive e now then rput r k ⟨e.val, some (now + ttl)⟩ else r
  | none => r

/-- `EXISTS` on the live view. -/
def rexists (r : Redis) (k : RKey) (now : Nat) : Bool :=
  (rget r k now).isSome

/-- `INCR`: increments a live integer counter, or (re)creates it at 1 with
no TTL; returns the post-increment value.  (Our counters only ever hold
`num` values; a live `str` value would raise in Redis and is mapped to a
fresh counter here, a case no modelled caller reaches.) -/
def rincr (r : Redis) (k : RKey) (now : Nat) : Redis × Nat :=
  match rget r k now with
  | some (.num n) =>
      let e := (rlook r k).getD ⟨.num n, none⟩
      (rput r k ⟨.num (n + 1), e.expiry⟩, n + 1)
  | _ => (rput r k ⟨.num 1, none⟩, 1)

/-- The Redis branch of `_check_rate_limit` on key `k`: `INCR`, arm the
window TTL on the first hit, and report the post-increment count (the caller
denies when it exceeds the per-kind maximum). -/
def rlCheck (r : Redis) (k : RKey) (window now : Nat) : Redis × Nat :=
  let res := rincr r k now
  let r2 := if res.2 = 1 then rexpire res.1 k window now else res.1
  (r2, res.2)

/-- Request window (`{start_index, size}`). -/
structure Window where
  start_index : Nat
  size : Nat
deriving DecidableEq

/-- Client descriptor; carried by the request but not consulted by any of
the modelled logic (it is not part of the canonical idempotency payload). -/
structure ClientInfo where
  device : String
  app_version : String
deriving DecidableEq

/-- `SessionStartRequest`; `voice_pack : Dict[str, str]` is modelled as an
association list with (as in any Python dict) no duplicate keys. -/
structure SessionStartRequest where
  chapter_id : String
  voice_pack : List (String × String)
  window : Window
  client : ClientInfo
deriving DecidableEq

/-- Lexicographic comparison of character lists by code point: Python's
`<=` on `str`, as used by `sorted(...)`.  (Defined explicitly so concrete
instances evaluate inside the kernel.) -/
def charsLe : List Char → List Char → Bool
  | [], _ => true
  | _ :: _, [] => false
  | a :: as, b :: bs =>
      if a < b then true else if b < a then false else charsLe as bs

/-- Python's `<=` on strings. -/
def strLe (s1 s2 : String) : Prop := charsLe s1.toList s2.toList = true

/-- Key order on voice-pack items, mirroring `sorted(req.voice_pack.keys())`. -/
def keyLe (a b : String × String) : Prop := strLe a.1 b.1

instance : DecidableRel keyLe := fun a b => by
  unfold keyLe strLe; infer_instance

lemma char_eq_of_not_lt {a b : Char} (h1 : ¬ a < b) (h2 : ¬ b < a) : a = b :=
  le_antisymm (le_of_not_lt h2) (le_of_not_lt h1)

lemma charsLe_total : ∀ xs ys : List Char,
    charsLe xs ys = true ∨ charsLe ys xs = true := by
  intro xs
  induction xs with
  | nil => intro ys; left; rfl
  | cons a as ih =>
      intro ys
      cases ys with
      | nil => right; rfl
      | cons b bs =>
          by_cases hab : a < b
          · left
            simp [charsLe, hab]
          · by_cases hba : b < a
            · right
              simp [charsLe, hba]
            · have hE : a = b := char_eq_of_not_lt hab hba
              subst hE
              rcases ih bs with h | h
              · left
                simp [charsLe, lt_irrefl, h]
              · right
                simp [charsLe, lt_irrefl, h]

lemma charsLe_trans : ∀ xs ys zs : List Char, charsLe xs ys = true →
    charsLe ys zs = true → charsLe xs zs = true := by
  intro xs
  induction xs with
  | nil => intro ys zs _ _; rfl
  | cons a as ih =>
      intro ys zs h1 h2
      cases ys with
      | nil => cases h1
      | cons b bs =>
          cases zs with
          | nil => cases h2
          | cons c cs =>
              by_cases hab : a < b
              · by_cases hbc : b < c
                · have hac : a < c := lt_trans hab hbc
                  simp [charsLe, hac]
                · by_cases hcb : c < b
                  · exfalso
                    simp [charsLe, hbc, hcb] at h2
                  · have hE : b = c := char_eq_of_not_lt hbc hcb
                    subst hE
                    simp [charsLe, hab]
              · by_cases hba : b < a
                · exfalso
                  simp [charsLe, hab, hba] at h1
                · have hE : a = b := char_eq_of_not_lt hab hba
                  subst hE
                  simp only [charsLe, lt_irrefl, if_false] at h1
                  by_cases hac : a < c
                  · simp [charsLe, hac]
                  · by_cases hca : c < a
                    · exfalso
                      simp [charsLe, hac, hca] at h2
                    · have hE2 : a = c := char_eq_of_not_lt hac hca
                      subst hE2
                      simp only [charsLe, lt_irrefl, if_false] at h2 ⊢
                      exact ih bs cs h1 h2

lemma charsLe_antisymm : ∀ xs ys : List Char, charsLe xs ys = true →
    charsLe ys xs = true → xs = ys := by
  intro xs
  induction xs with
  | nil =>
      intro ys h1 h2
      cases ys with
      | nil => rfl
      | cons b bs => cases h2
  | cons a as ih =>
      intro ys h1 h2
      cases ys with
      | nil => cases h1
      | cons b bs =>
          by_cases hab : a < b
          · exfalso
            simp [charsLe, hab, asymm hab] at h2
          · by_cases hba : b < a
            · exfalso
              simp [charsLe, hba, asymm hba] at h1
            · have hE : a = b := char_eq_of_not_lt hab hba
              subst hE
              simp only [charsLe, lt_irrefl, if_false] at h1 h2
              rw [ih bs h1 h2]

lemma strLe_antisymm {s1 s2 : String} (h1 : strLe s1 s2) (h2 : strLe s2 s1) :
    s1 = s2 := by
  have h := charsLe_antisymm _ _ h1 h2
  exact String.ext h

instance : IsTotal (String × String) keyLe :=
  ⟨fun a b => charsLe_total a.1.toList b.1.toList⟩

instance : IsTrans (String × String) keyLe :=
  ⟨fun _ _ _ h1 h2 => charsLe_trans _ _ _ h1 h2⟩

/-- The voice-pack mapping sorted by key, as in the canonical payload. -/
def sortByKey (l : List (String × String)) : List (String × String) :=
  l.insertionSort keyLe

/-- `_compute_idempotency_key_for_start`: the canonical payload (chapter id,
window start index and size, voice pack sorted by key); the SHA-256 digest
is modelled by the payload itself. -/
def computeIdempotencyKeyForStart (req : SessionStartRequest) : RKey :=
  .idem req.chapter_id req.window.start_index req.window.size
    (sortByKey req.voice_pack)

/-- Environment-supplied configuration of the handlers. -/
structure EnvCfg where
  rateWindow : Nat
  startMax : Nat
  nextMax : Nat
  idempTtl : Nat
deriving DecidableEq

/-- Global server state in the Redis-backed deployment: the Redis database
and the in-process `JOBS` registry. -/
structure SState where
  redis : Redis
  jobs : List (String × JobState)
deriving DecidableEq

/-- Registry lookup `JOBS.get(job_id)` / `job_id in JOBS`. -/
def jlookup (jobs : List (String × JobState)) (jobId : String) : Option JobState :=
  (jobs.find? fun e => e.1 == jobId).map Prod.snd

/-- Response of `session_start` / `session_next`: 429, 400, or the success
payload (job id plus the upload mode, `"presigned"` for an idempotent reuse
and `"direct"` for a freshly created job). -/
inductive StartResp
  | rateLimited
  | badWindow
  | okStart (jobId : String) (uploadMode : String)
deriving DecidableEq

/-- Shallow embedding of `session_start` (Redis-backed deployment), for a
caller IP `ip`; `freshId` stands for the freshly drawn
`f"job_{uuid4().hex[:8]}"`.  In source order: the `start` rate-limit check
(`INCR` + TTL arming, deny on `count > max`), the `window.size == 20`
validation, the idempotency lookup (reuse the mapped job when its snapshot
still exists or it is still in `JOBS`), else job creation, registration of
the idempotency mapping with the idempotency TTL, and spawning of the
pipeline task (the spawned task is modelled separately by `initConfig`). -/
def session_start (cfg : EnvCfg) (st : SState) (now : Nat)
    (req : SessionStartRequest) (ip freshId : String) : SState × StartResp :=
  let rl := rlCheck st.redis (.rl "start" ip) cfg.rateWindow now
  if cfg.startMax < rl.2 then ({ st with redis := rl.1 }, .rateLimited)
  else if req.window.size ≠ 20 then ({ st with redis := rl.1 }, .badWindow)
  else
    let ikey := computeIdempotencyKeyForStart req
    let doCreate : SState × StartResp :=
      let job := mkJob freshId req.window.size
      let r3 := rexpire (rset rl.1 ikey (.str freshId)) ikey cfg.idempTtl now
      ({ redis := r3, jobs := (freshId, job) :: st.jobs }, .okStart freshId "direct")
    match rget rl.1 ikey now with
    | some (.str existingId) =>
        if rexists rl.1 (.snap existingId) now || (jlookup st.jobs existingId).isSome
        then ({ st with redis := rl.1 }, .okStart existingId "presigned")
        else doCreate
    | _ => doCreate

/-- Shallow embedding of `session_next`: the `next` rate-limit check, then
delegation to `session_start` (which performs the `start` check as well). -/
def session_next (cfg : EnvCfg) (st : SState) (now : Nat)
    (req : SessionStartRequest) (ip freshId : String) : SState × StartResp :=
  let rl := rlCheck st.redis (.rl "next" ip) cfg.rateWindow now
  if cfg.nextMax < rl.2 then ({ st with redis := rl.1 }, .rateLimited)
  else session_start cfg { st with redis := rl.1 } now req ip freshId

/-!
## Generic helper lemmas
-/

lemma fwd_refl (s : PState) : fwd s s = true := by cases s <;> rfl

lemma countP_set (l : List Page) (q : Page → Bool) :
    ∀ (i : Nat) (a : Page) (h : i < l.length),
      (l.set i a).countP q + (if q (l.get ⟨i, h⟩) then 1 else 0) =
        l.countP q + (if q a then 1 else 0) := by
  induction l with
  | nil => intro i a h; simp at h
  | cons b t ih =>
      intro i a h
      cases i with
      | zero => simp [List.countP_cons]; omega
      | succ n =>
          have hn : n < t.length := by simpa using h
          have := ih n a hn
          simp only [List.set_cons_succ, List.countP_cons, List.get_cons_succ]
          omega

lemma range_map_getD {α β : Type} (l : List α) (d : α) (f : α → β) :
    (List.range l.length).map (fun i => f (l.getD i d)) = l.map f := by
  induction l with
  | nil => rfl
  | cons a t ih =>
      simp only [List.length_cons, List.range_succ_eq_map, List.map_cons,
        List.map_map, List.getD_cons_zero]
      have h1 : ((fun i => f ((a :: t).getD i d)) ∘ Nat.succ) =
          (fun i => f (t.getD i d)) := by
        funext i
        simp
      rw [h1, ih]

/-!
## Redis model lemmas
-/

lemma find?_filter_ne (k k' : RKey) (h : k' ≠ k) :
    ∀ l : List (RKey × REntry),
      (l.filter fun kv => kv.1 ≠ k).find? (fun e => e.1 == k') =
        l.find? (fun e => e.1 == k') := by
  intro l
  induction l with
  | nil => rfl
  | cons kv t ih =>
      by_cases hk : kv.1 = k
      · have h2 : (kv.1 == k') = false := by
          simp only [beq_eq_false_iff_ne, hk]
          exact fun he => h he.symm
        rw [List.filter_cons_of_neg (by simp [hk]), ih, List.find?_cons, h2]
      · rw [List.filter_cons_of_pos (by simp [hk]), List.find?_cons, List.find?_cons]
        cases hkk : (kv.1 == k') with
        | true => rfl
        | false => exact ih

lemma rlook_rput_self (r : Redis) (k : RKey) (e : REntry) :
    rlook (rput r k e) k = some e := by
  simp [rlook, rput, List.find?_cons]

lemma rlook_rput_ne (r : Redis) (k : RKey) (e : REntry) (k' : RKey) (h : k' ≠ k) :
    rlook (rput r k e) k' = rlook r k' := by
  have hk : (k == k') = false := by
    simp
    exact fun he => h he.symm
  simp only [rlook, rput, List.find?_cons, hk]
  rw [find?_filter_ne k k' h r.entries]

lemma rlook_rexpire_ne (r : Redis) (k : RKey) (ttl now : Nat) (k' : RKey)
    (h : k' ≠ k) : rlook (rexpire r k ttl now) k' = rlook r k' := by
  unfold rexpire
  cases rlook r k with
  | none => rfl
  | some e =>
      by_cases hl : rlive e now
      · simp [hl, rlook_rput_ne _ _ _ _ h]
      · simp [hl]

lemma rlook_rincr_ne (r : Redis) (k : RKey) (now : Nat) (k' : RKey) (h : k' ≠ k) :
    rlook (rincr r k now).1 k' = rlook r k' := by
  unfold rincr
  cases hg : rget r k now with
  | none => simpa using rlook_rput_ne _ _ _ _ h
  | some v =>
      cases v with
      | str s => simpa using rlook_rput_ne _ _ _ _ h
      | num n => simpa using rlook_rput_ne _ _ _ _ h

lemma rlook_rlCheck_ne (r : Redis) (k : RKey) (w now : Nat) (k' : RKey)
    (h : k' ≠ k) : rlook (rlCheck r k w now).1 k' = rlook r k' := by
  unfold rlCheck
  by_cases h1 : (rincr r k now).2 = 1
  · simp only [h1, if_true]
    rw [rlook_rexpire_ne _ _ _ _ _ h, rlook_rincr_ne _ _ _ _ h]
  · simp only [h1, if_false]
    exact rlook_rincr_ne _ _ _ _ h

lemma rget_of_rlook_eq {r1 r2 : Redis} {k : RKey} (h : rlook r1 k = rlook r2 k)
    (now : Nat) : rget r1 k now = rget r2 k now := by
  unfold rget
  rw [h]

/-- The dominant value stored under `k` after `rexpire` is unchanged. -/
lemma rlook_rexpire_val (r : Redis) (k : RKey) (ttl now : Nat) :
    (rlook (rexpire r k ttl now) k).map REntry.val = (rlook r k).map REntry.val := by
  unfold rexpire
  cases hg : rlook r k with
  | none => simp [hg]
  | some e =>
      by_cases hl : rlive e now
      · simp [hg, hl, rlook_rput_self]
      · simp [hg, hl]

/-- `INCR` stores exactly the post-increment value under `k`. -/
lemma rlook_rincr_val (r : Redis) (k : RKey) (now : Nat) :
    (rlook (rincr r k now).1 k).map REntry.val = some (.num (rincr r k now).2) := by
  unfold rincr
  cases hg : rget r k now with
  | none => simp [rlook_rput_self]
  | some v =>
      cases v with
      | str s => simp [rlook_rput_self]
      | num n => simp [rlook_rput_self]

/-- The rate-limit check stores exactly the post-increment count. -/
lemma rlook_rlCheck_val (r : Redis) (k : RKey) (w now : Nat) :
    (rlook (rlCheck r k w now).1 k).map REntry.val =
      some (.num (rlCheck r k w now).2) := by
  unfold rlCheck
  by_cases h1 : (rincr r k now).2 = 1
  · simp only [h1, if_true]
    rw [rlook_rexpire_val, rlook_rincr_val, h1]
  · simp only [h1, if_false]
    exact rlook_rincr_val r k now

/-!
## C7 — upload validation gates
-/

/-- C7 (counterexample): the claim "if the content type is not `image/png`
the call fails with 415 and the page's state is unchanged" fails on the
code: the gate is a substring test, so the content type `fake-image/png`,
which is not `image/png`, is accepted (200) and the page is moved to
`extracting`. -/
theorem upload_page_ctype_counterexample :
    "fake-image/png" ≠ "image/png" ∧
    (uploadPage 4 (mkJob "j" 1) 0 "fake-image/png" 10).resp = .okResp ∧
    ((uploadPage 4 (mkJob "j" 1) 0 "fake-image/png" 10).job.pages.getD 0
        defaultPage).state = .extracting := by
  refine ⟨by decide, by decide, by decide⟩

/-- C7 (amended): for an upload to an existing job, the call fails with 415
iff the lowercased content type does not contain `image/png` as a substring
(leaving the job, in particular every page state, unchanged); when it does,
the call fails with 413 iff the body exceeds the configured maximum
(likewise leaving the job unchanged); when both checks pass the upload
succeeds and the page index is recorded as uploaded. -/
theorem upload_page_validation (th : Nat) (job : JobState) (idx : Int)
    (ctype : String) (bodyLen : Nat) :
    (ctypeOk ctype = false →
      uploadPage th job idx ctype bodyLen = ⟨job, .unsupportedMediaType, false⟩) ∧
    (ctypeOk ctype = true → MAX_PNG_BYTES < bodyLen →
      uploadPage th job idx ctype bodyLen = ⟨job, .payloadTooLarge, false⟩) ∧
    (ctypeOk ctype = true → bodyLen ≤ MAX_PNG_BYTES →
      (uploadPage th job idx ctype bodyLen).resp = .okResp ∧
      (uploadPage th job idx ctype bodyLen).job.uploadedPages =
        insert idx job.uploadedPages) := by
  refine ⟨?_, ?_, ?_⟩
  · intro hct
    unfold uploadPage
    simp [hct]
  · intro hct hlen
    unfold uploadPage
    simp [hct, hlen]
  · intro hct hlen
    have hlen' : ¬ MAX_PNG_BYTES < bodyLen := by omega
    unfold uploadPage
    simp only [hct, Bool.not_true, Bool.false_eq_true, if_false, if_neg hlen']
    cases hpl : pageLookup
        { job with
          uploadedPages := insert idx job.uploadedPages
          magiStartEvent :=
            if min th job.total ≤ (insert idx job.uploadedPages).card then true
            else job.magiStartEvent } idx with
    | some p => simp [hpl]
    | none => simp [hpl]

/-- C7 (witness): the three branches of `upload_page_validation` at concrete
inputs — a `image/jpeg` upload is a 415 no-op, an oversized PNG upload is a
413 no-op, and a valid PNG upload succeeds and records the index. -/
theorem upload_page_validation_witness :
    (ctypeOk "image/jpeg" = false ∧
      uploadPage 4 (mkJob "j" 2) 0 "image/jpeg" 10 =
        ⟨mkJob "j" 2, .unsupportedMediaType, false⟩) ∧
    (ctypeOk "image/png" = true ∧ MAX_PNG_BYTES < 3000001 ∧
      uploadPage 4 (mkJob "j" 2) 0 "image/png" 3000001 =
        ⟨mkJob "j" 2, .payloadTooLarge, false⟩) ∧
    (ctypeOk "image/png" = true ∧ (10 : Nat) ≤ MAX_PNG_BYTES ∧
      (uploadPage 4 (mkJob "j" 2) 1 "image/png" 10).resp = .okResp ∧
      (uploadPage 4 (mkJob "j" 2) 1 "image/png" 10).job.uploadedPages =
        insert 1 (mkJob "j" 2).uploadedPages) :=
  ⟨⟨by decide, (upload_page_validation 4 (mkJob "j" 2) 0 "image/jpeg" 10).1 (by decide)⟩,
   ⟨by decide, by decide,
    (upload_page_validation 4 (mkJob "j" 2) 0 "image/png" 3000001).2.1 (by decide) (by decide)⟩,
   ⟨by decide, by decide,
    (upload_page_validation 4 (mkJob "j" 2) 1 "image/png" 10).2.2 (by decide) (by decide)⟩⟩

/-!
## C10 — out-of-range upload indices
-/

/-- C10: for an existing job, a valid PNG upload whose index is outside
`0..total-1` succeeds anyway: the index is inserted into the uploaded set
(and thereby counts toward the `min(threshold, total)` rolling-start
latch, whose update is exactly the recorded conditional), while the pages,
the event queue, the `done` counter — the entire rest of the job — are
untouched, no snapshot is persisted, and no error is reported. -/
theorem upload_page_out_of_range (th : Nat) (job : JobState) (idx : Int)
    (ctype : String) (bodyLen : Nat)
    (hlen : job.pages.length = job.total)
    (hct : ctypeOk ctype = true) (hbl : bodyLen ≤ MAX_PNG_BYTES)
    (hout : idx < 0 ∨ (job.total : Int) ≤ idx) :
    uploadPage th job idx ctype bodyLen =
      ⟨{ job with
          uploadedPages := insert idx job.uploadedPages
          magiStartEvent :=
            if min th job.total ≤ (insert idx job.uploadedPages).card then true
            else job.magiStartEvent },
        .okResp, false⟩ := by
  have hbl' : ¬ MAX_PNG_BYTES < bodyLen := by omega
  have hpl : ∀ j1 : JobState, j1.pages = job.pages → pageLookup j1 idx = none := by
    intro j1 hp
    unfold pageLookup
    rcases hout with hneg | hge
    · simp [hneg]
    · have h0 : ¬ idx < 0 := by omega
      simp only [h0, if_false]
      rw [hp]
      apply List.get?_eq_none.mpr
      rw [hlen]
      omega
  unfold uploadPage
  simp only [hct, Bool.not_true, Bool.false_eq_true, if_false, if_neg hbl']
  rw [hpl { job with
      uploadedPages := insert idx job.uploadedPages
      magiStartEvent :=
        if min th job.total ≤ (insert idx job.uploadedPages).card then true
        else job.magiStartEvent } rfl]

/-- C10 (witness): uploading index 7 to a two-page job succeeds, records 7
in the uploaded set, and changes nothing else. -/
theorem upload_page_out_of_range_witness :
    (mkJob "j" 2).pages.length = (mkJob "j" 2).total ∧
    ctypeOk "image/png" = true ∧ (10 : Nat) ≤ MAX_PNG_BYTES ∧
    ((7 : Int) < 0 ∨ ((mkJob "j" 2).total : Int) ≤ 7) ∧
    uploadPage 4 (mkJob "j" 2) 7 "image/png" 10 =
      ⟨{ mkJob "j" 2 with
          uploadedPages := insert 7 (mkJob "j" 2).uploadedPages
          magiStartEvent :=
            if min 4 (mkJob "j" 2).total ≤ (insert 7 (mkJob "j" 2).uploadedPages).card
            then true else (mkJob "j" 2).magiStartEvent },
        .okResp, false⟩ :=
  ⟨by decide, by decide, by decide, by decide,
   upload_page_out_of_range 4 (mkJob "j" 2) 7 "image/png" 10 (by decide) (by decide)
     (by decide) (by decide)⟩

/-!
## C4 — fixed-window rate limiting (in-memory fallback)
-/

lemma runRateMem_append (w m : Nat) (l1 l2 : List Nat) :
    ∀ b, runRateMem b w m (l1 ++ l2) =
      ((runRateMem (runRateMem b w m l1).1 w m l2).1,
        (runRateMem b w m l1).2 ++ (runRateMem (runRateMem b w m l1).1 w m l2).2) := by
  induction l1 with
  | nil => intro b; rfl
  | cons t ts ih =>
      intro b
      simp only [List.cons_append, runRateMem, List.append_eq]
      rw [ih]

lemma runRateMem_window (w m R : Nat) :
    ∀ (ts : List Nat) (c : Nat), (∀ t ∈ ts, t ≤ R) →
      runRateMem (some ⟨c, R⟩) w m ts =
        (some ⟨c + ts.length, R⟩,
          (List.range ts.length).map fun j => decide (c + j + 1 ≤ m)) := by
  intro ts
  induction ts with
  | nil => intro c _; simp [runRateMem]
  | cons t ts ih =>
      intro c hts
      have ht : ¬ (⟨c, R⟩ : RateBucket).resetAt < t := by
        have := hts t (List.mem_cons_self t ts)
        simp only []
        omega
      have hrest : ∀ u ∈ ts, u ≤ R := fun u hu => hts u (List.mem_cons_of_mem t hu)
      simp only [runRateMem, rateCheckMem, if_neg ht, ih (c + 1) hrest,
        Prod.mk.injEq, Option.some.injEq, RateBucket.mk.injEq, List.length_cons]
      refine ⟨⟨by omega, trivial⟩, ?_⟩
      rw [List.range_succ_eq_map, List.map_cons, List.map_map]
      congr 1
      apply List.map_congr_left
      intro j _
      have h2 : c + 1 + j + 1 = c + (j + 1) + 1 := by omega
      simp [Function.comp, h2]

lemma runRateMem_fresh (w m t0 : Nat) (ts : List Nat)
    (hts : ∀ t ∈ ts, t ≤ t0 + w) :
    runRateMem none w m (t0 :: ts) =
      (some ⟨1 + ts.length, t0 + w⟩,
        true :: (List.range ts.length).map fun j => decide (1 + j + 1 ≤ m)) := by
  simp only [runRateMem, rateCheckMem]
  rw [runRateMem_window _ _ _ ts 1 hts]

lemma runRateMem_reset (w m : Nat) (bk : RateBucket) (t0 : Nat) (ts : List Nat)
    (hgt : bk.resetAt < t0) (hts : ∀ t ∈ ts, t ≤ t0 + w) :
    runRateMem (some bk) w m (t0 :: ts) =
      (some ⟨1 + ts.length, t0 + w⟩,
        true :: (List.range ts.length).map fun j => decide (1 + j + 1 ≤ m)) := by
  simp only [runRateMem, rateCheckMem, if_pos hgt]
  rw [runRateMem_window _ _ _ ts 1 hts]

lemma map_decide_all_true (n m c : Nat) (h : c + n ≤ m) :
    ((List.range n).map fun j => decide (c + j + 1 ≤ m)) = List.replicate n true := by
  have h1 : ∀ b ∈ (List.range n).map fun j => decide (c + j + 1 ≤ m), b = true := by
    intro b hb
    rcases List.mem_map.mp hb with ⟨j, hj, rfl⟩
    have hj' : j < n := List.mem_range.mp hj
    simp only [decide_eq_true_eq]
    omega
  have h2 := List.eq_replicate_of_mem h1
  simpa using h2

/-- C4 (counterexample): "the rate-limit check denies a request if and only
if the post-increment counter of the current fixed window exceeds max" fails
on the in-memory fallback at configured maximum 0: the first request of a
window sets the counter to 1 — which exceeds 0 — without any check, and is
allowed. -/
theorem rate_limit_iff_counterexample :
    (rateCheckMem none 0 60 0).1.count = 1 ∧
    0 < (rateCheckMem none 0 60 0).1.count ∧
    (rateCheckMem none 0 60 0).2 = true := by
  refine ⟨by decide, by decide, by decide⟩

/-- C4 (amended): in the in-memory fallback the first request of a fresh
window is always allowed (it sets the counter to 1 and arms the window-long
TTL without a check), so for every configured maximum `max ≥ 1` the check
denies iff the post-increment counter exceeds `max`; `max + 1` requests
within one armed window deny exactly the `(max+1)`-th; and `max` requests
split across two distinct windows are all allowed. -/
theorem rate_limit_window (window maxA : Nat) (hmax : 1 ≤ maxA) :
    (∀ (b : Option RateBucket) (now : Nat),
      ((rateCheckMem b now window maxA).2 = false ↔
        maxA < (rateCheckMem b now window maxA).1.count)) ∧
    (∀ now : Nat, rateCheckMem none now window maxA = (⟨1, now + window⟩, true)) ∧
    (∀ (t0 : Nat) (ts : List Nat), ts.length = maxA → (∀ t ∈ ts, t ≤ t0 + window) →
      (runRateMem none window maxA (t0 :: ts)).2 =
        List.replicate maxA true ++ [false]) ∧
    (∀ (u0 v0 : Nat) (us vs : List Nat),
      us.length + 1 ≤ maxA → vs.length + 1 ≤ maxA →
      (∀ t ∈ us, t ≤ u0 + window) → u0 + window < v0 →
      (∀ t ∈ vs, t ≤ v0 + window) →
      (runRateMem none window maxA ((u0 :: us) ++ (v0 :: vs))).2 =
        List.replicate (us.length + vs.length + 2) true) := by
  refine ⟨?_, ?_, ?_, ?_⟩
  · intro b now
    match b with
    | none =>
        have he : rateCheckMem none now window maxA = (⟨1, now + window⟩, true) := rfl
        rw [he]
        simp only [Prod.snd, Prod.fst]
        constructor
        · intro h; cases h
        · intro h; omega
    | some bk =>
        by_cases hr : bk.resetAt < now
        · have he : rateCheckMem (some bk) now window maxA =
              (⟨1, now + window⟩, true) := by
            simp [rateCheckMem, if_pos hr]
          rw [he]
          simp only [Prod.snd, Prod.fst]
          constructor
          · intro h; cases h
          · intro h; omega
        · have he : rateCheckMem (some bk) now window maxA =
              (⟨bk.count + 1, bk.resetAt⟩, decide (bk.count + 1 ≤ maxA)) := by
            simp [rateCheckMem, if_neg hr]
          rw [he]
          simp only [Prod.snd, Prod.fst, decide_eq_false_iff_not]
          omega
  · intro now; rfl
  · intro t0 ts hlen hts
    obtain ⟨k, hk⟩ : ∃ k, maxA = k + 1 := ⟨maxA - 1, by omega⟩
    rw [runRateMem_fresh window maxA t0 ts hts, hlen, hk]
    rw [List.range_succ, List.map_append]
    rw [map_decide_all_true k (k + 1) 1 (by omega)]
    have hlast : (([k] : List Nat).map fun j => decide (1 + j + 1 ≤ k + 1)) =
        [false] := by
      have hnk : ¬ (1 + k + 1 ≤ k + 1) := by omega
      simp [hnk]
    rw [hlast]
    simp [List.replicate_succ]
  · intro u0 v0 us vs hus hvs husB hgap hvsB
    rw [runRateMem_append window maxA (u0 :: us) (v0 :: vs) none]
    rw [runRateMem_fresh window maxA u0 us husB]
    rw [runRateMem_reset window maxA ⟨1 + us.length, u0 + window⟩ v0 vs hgap hvsB]
    rw [map_decide_all_true us.length maxA 1 (by omega)]
    rw [map_decide_all_true vs.length maxA 1 (by omega)]
    have hsplit : us.length + vs.length + 2 = (us.length + 1) + (vs.length + 1) := by
      omega
    rw [hsplit, List.replicate_add]
    simp [List.replicate_succ]

/-- C4 (witness): the amended statement at `window = 60`, `max = 2`:
denial is equivalent to the counter exceeding 2; a fresh first request is
`({count 1, reset 60}, allowed)`; three requests in one window deny exactly
the third; two requests split across two windows are both allowed. -/
theorem rate_limit_window_witness :
    (1 : Nat) ≤ 2 ∧
    ((rateCheckMem (some ⟨2, 60⟩) 10 60 2).2 = false ↔
      2 < (rateCheckMem (some ⟨2, 60⟩) 10 60 2).1.count) ∧
    rateCheckMem none 0 60 2 = (⟨1, 60⟩, true) ∧
    (runRateMem none 60 2 [0, 10, 20]).2 = List.replicate 2 true ++ [false] ∧
    (runRateMem none 60 2 ((0 :: [] : List Nat) ++ (100 :: []))).2 =
      List.replicate (0 + 0 + 2) true :=
  ⟨by decide,
   (rate_limit_window 60 2 (by decide)).1 (some ⟨2, 60⟩) 10,
   (rate_limit_window 60 2 (by decide)).2.1 0,
   (rate_limit_window 60 2 (by decide)).2.2.1 0 [10, 20] (by decide)
     (by intro t ht; fin_cases ht <;> omega),
   (rate_limit_window 60 2 (by decide)).2.2.2 0 100 [] []
     (by decide) (by decide) (by intro t ht; cases ht) (by omega)
     (by intro t ht; cases ht)⟩

/-!
## C8 — keep-alive emission
-/

/-- The schedule used to refute the idle-only keep-alive claim: a real event
is delivered every second for 16 seconds. -/
def busySched : List (Nat × Bool) :=
  (List.range 16).map fun k => (k + 1, true)

/-- C8 (counterexample): a keep-alive is emitted at time 16 of `busySched`
even though a real event was delivered at time 16 itself (and at every
second before it) — the stream emits keep-alives on a fixed cadence
regardless of real traffic, because `last_heartbeat` is never updated when a
real event is yielded. -/
theorem keepalive_not_idle_counterexample :
    SEvent.keep 16 ∈ streamLoop 0 busySched ∧
    SEvent.realEv 16 ∈ streamLoop 0 busySched ∧
    ¬ keepAliveOnlyWhenIdle (streamLoop 0 busySched) := by
  refine ⟨by decide, by decide, by decide⟩

/-- C8 (amended): keep-alive emission is a function of the iteration times
alone — a keep-alive fires at an iteration iff more than 15 time units have
passed since the previous keep-alive (or since attach), whether or not real
events were delivered in between — and consecutive keep-alives are always
more than 15 time units apart. -/
theorem keepalive_cadence (lastHb : Nat) (sched : List (Nat × Bool)) :
    keepTimes (streamLoop lastHb sched) = hbTimes lastHb (sched.map Prod.fst) ∧
    List.Chain' (fun a b => a + 15 < b)
      (lastHb :: keepTimes (streamLoop lastHb sched)) := by
  have keepTimes_nil : keepTimes [] = [] := rfl
  have keepTimes_append : ∀ l1 l2 : List SEvent,
      keepTimes (l1 ++ l2) = keepTimes l1 ++ keepTimes l2 := fun l1 l2 =>
    List.filterMap_append l1 l2 _
  have keepTimes_cons_keep : ∀ (t : Nat) (l : List SEvent),
      keepTimes (SEvent.keep t :: l) = t :: keepTimes l := by
    intro t l; simp [keepTimes]
  have keepTimes_cons_real : ∀ (t : Nat) (l : List SEvent),
      keepTimes (SEvent.realEv t :: l) = keepTimes l := by
    intro t l; simp [keepTimes]
  have hkt : ∀ (s : List (Nat × Bool)) (hb : Nat),
      keepTimes (streamLoop hb s) = hbTimes hb (s.map Prod.fst) := by
    intro s
    induction s with
    | nil => intro hb; rfl
    | cons e rest ih =>
        intro hb
        obtain ⟨now, got⟩ := e
        by_cases hlt : hb + 15 < now
        · cases got <;>
            simp [streamLoop, if_pos hlt, hbTimes, keepTimes_append,
              keepTimes_cons_keep, keepTimes_cons_real, keepTimes_nil, ih]
        · cases got <;>
            simp [streamLoop, if_neg hlt, hbTimes, keepTimes_append,
              keepTimes_cons_keep, keepTimes_cons_real, keepTimes_nil, ih]
  have hchain : ∀ (ts : List Nat) (hb : Nat),
      List.Chain' (fun a b => a + 15 < b) (hb :: hbTimes hb ts) := by
    intro ts
    induction ts with
    | nil => intro hb; simp [hbTimes]
    | cons t rest ih =>
        intro hb
        by_cases hlt : hb + 15 < t
        · rw [hbTimes, if_pos hlt]
          exact List.Chain'.cons hlt (ih t)
        · rw [hbTimes, if_neg hlt]
          exact ih hb
  refine ⟨hkt sched lastHb, ?_⟩
  rw [hkt sched lastHb]
  exact hchain (sched.map Prod.fst) lastHb

/-!
## Session-handler lemmas (shared by C1, C6, C9)
-/

lemma rl_ne_idem (kind ip ch : String) (si sz : Nat) (vp : List (String × String)) :
    RKey.rl kind ip ≠ RKey.idem ch si sz vp := by
  intro h
  cases h

lemma rl_ne_rl_of_kind (k1 k2 ip1 ip2 : String) (h : k1 ≠ k2) :
    RKey.rl k1 ip1 ≠ RKey.rl k2 ip2 := by
  intro he
  cases he
  exact h rfl

lemma rlCheck_count (r : Redis) (k : RKey) (w now : Nat) :
    (rlCheck r k w now).2 = (rincr r k now).2 := rfl

lemma rincr_count_congr (r1 r2 : Redis) (k : RKey) (now : Nat)
    (h : rlook r1 k = rlook r2 k) :
    (rincr r1 k now).2 = (rincr r2 k now).2 := by
  unfold rincr rget
  rw [h]
  cases hm : (match rlook r2 k with
      | some e => if rlive e now = true then some e.val else none
      | none => none : Option RVal) with
  | none => rfl
  | some v => cases v <;> rfl

lemma rlCheck_count_congr (r1 r2 : Redis) (k : RKey) (w now : Nat)
    (h : rlook r1 k = rlook r2 k) :
    (rlCheck r1 k w now).2 = (rlCheck r2 k w now).2 := by
  rw [rlCheck_count, rlCheck_count]
  exact rincr_count_congr r1 r2 k now h

/-- Whatever branch `session_start` takes, the resulting Redis agrees with
the post-rate-check Redis on every key that is not an idempotency key. -/
lemma session_start_rl_preserved (cfg : EnvCfg) (st : SState) (now : Nat)
    (req : SessionStartRequest) (ip fid : String) (k : RKey)
    (hk : ∀ ch si sz vp, k ≠ RKey.idem ch si sz vp) :
    rlook (session_start cfg st now req ip fid).1.redis k =
      rlook (rlCheck st.redis (.rl "start" ip) cfg.rateWindow now).1 k := by
  unfold session_start
  by_cases hc : cfg.startMax < (rlCheck st.redis (.rl "start" ip) cfg.rateWindow now).2
  · rw [if_pos hc]
  · rw [if_neg hc]
    by_cases hsz : req.window.size ≠ 20
    · rw [if_pos hsz]
    · rw [if_neg hsz]
      have hne : k ≠ computeIdempotencyKeyForStart req := hk _ _ _ _
      simp only [rset]
      split
      · split
        · rfl
        · rw [rlook_rexpire_ne _ _ _ _ _ hne, rlook_rput_ne _ _ _ _ hne]
      · rw [rlook_rexpire_ne _ _ _ _ _ hne, rlook_rput_ne _ _ _ _ hne]

/-- `session_start` answers 429 exactly when the post-increment `start`
counter exceeds the configured maximum. -/
lemma session_start_rateLimited_iff (cfg : EnvCfg) (st : SState) (now : Nat)
    (req : SessionStartRequest) (ip fid : String) :
    ((session_start cfg st now req ip fid).2 = .rateLimited ↔
      cfg.startMax < (rlCheck st.redis (.rl "start" ip) cfg.rateWindow now).2) := by
  by_cases hc : cfg.startMax < (rlCheck st.redis (.rl "start" ip) cfg.rateWindow now).2
  · constructor
    · intro _; exact hc
    · intro _
      unfold session_start
      rw [if_pos hc]
  · constructor
    · intro h
      exfalso
      unfold session_start at h
      rw [if_neg hc] at h
      by_cases hsz : req.window.size ≠ 20
      · rw [if_pos hsz] at h
        cases h
      · rw [if_neg hsz] at h
        simp only [] at h
        revert h
        split
        · split
          · intro h; simp at h
          · intro h; simp at h
        · intro h; simp at h
    · intro h; exact absurd h hc

/-!
## C6 — window-size validation and its side effects
-/

/-- Configuration used in the concrete counterexamples: a 60-unit rate
window, `start` maximum 10, `next` maximum 20, TTL 3600. -/
def exCfg : EnvCfg := ⟨60, 10, 20, 3600⟩

/-- An empty server state. -/
def exEmptyState : SState := ⟨⟨[]⟩, []⟩

/-- A `start` request with window size 15. -/
def exReq15 : SessionStartRequest :=
  { chapter_id := "ch-1", voice_pack := [("narrator", "v1")],
    window := ⟨0, 15⟩, client := ⟨"ios", "1.0"⟩ }

/-- C6 (counterexample): a `start` call with window size 15 does return the
400 validation error and creates no job, but it is not side-effect free: the
`start` rate-limit counter for the caller's IP is incremented (absent before
the call, 1 after it). -/
theorem session_start_side_effect_counterexample :
    (session_start exCfg exEmptyState 0 exReq15 "1.2.3.4" "job_x").2 = .badWindow ∧
    rget exEmptyState.redis (.rl "start" "1.2.3.4") 0 = none ∧
    rget (session_start exCfg exEmptyState 0 exReq15 "1.2.3.4" "job_x").1.redis
      (.rl "start" "1.2.3.4") 0 = some (.num 1) := by
  refine ⟨by decide, by decide, by decide⟩

/-- C6 (amended): a `start` call whose window size differs from 20 creates
no job and leaves every Redis key except the caller's `start` rate-limit key
unchanged (in particular the idempotency mapping), and fails with 400 — or
with 429 if the rate check denies first; but the `start` rate-limit counter
is incremented before validation, so the call is not free of side effects. -/
theorem session_start_bad_window (cfg : EnvCfg) (st : SState) (now : Nat)
    (req : SessionStartRequest) (ip fid : String)
    (hsz : req.window.size ≠ 20) :
    ((session_start cfg st now req ip fid).1.jobs = st.jobs) ∧
    ((session_start cfg st now req ip fid).2 =
      if cfg.startMax < (rlCheck st.redis (.rl "start" ip) cfg.rateWindow now).2
      then .rateLimited else .badWindow) ∧
    ((session_start cfg st now req ip fid).1.redis =
      (rlCheck st.redis (.rl "start" ip) cfg.rateWindow now).1) ∧
    (∀ k, k ≠ RKey.rl "start" ip →
      rlook (session_start cfg st now req ip fid).1.redis k = rlook st.redis k) ∧
    ((rlook (session_start cfg st now req ip fid).1.redis (RKey.rl "start" ip)).map
        REntry.val =
      some (.num (rlCheck st.redis (.rl "start" ip) cfg.rateWindow now).2)) := by
  have hres : session_start cfg st now req ip fid =
      ({ st with redis := (rlCheck st.redis (.rl "start" ip) cfg.rateWindow now).1 },
        if cfg.startMax < (rlCheck st.redis (.rl "start" ip) cfg.rateWindow now).2
        then .rateLimited else .badWindow) := by
    unfold session_start
    by_cases hc : cfg.startMax < (rlCheck st.redis (.rl "start" ip) cfg.rateWindow now).2
    · simp [hc]
    · simp [hc, hsz]
  rw [hres]
  refine ⟨rfl, rfl, rfl, ?_, ?_⟩
  · intro k hkne
    exact rlook_rlCheck_ne _ _ _ _ _ hkne
  · exact rlook_rlCheck_val _ _ _ _

/-- C6 (witness): `session_start_bad_window` at the concrete size-15
request: the job registry is untouched, the response is 400, and the stored
counter equals the post-increment count 1. -/
theorem session_start_bad_window_witness :
    exReq15.window.size ≠ 20 ∧
    ((session_start exCfg exEmptyState 0 exReq15 "1.2.3.4" "job_x").1.jobs =
      exEmptyState.jobs) ∧
    ((session_start exCfg exEmptyState 0 exReq15 "1.2.3.4" "job_x").2 =
      if exCfg.startMax <
          (rlCheck exEmptyState.redis (.rl "start" "1.2.3.4") exCfg.rateWindow 0).2
      then .rateLimited else .badWindow) ∧
    ((session_start exCfg exEmptyState 0 exReq15 "1.2.3.4" "job_x").1.redis =
      (rlCheck exEmptyState.redis (.rl "start" "1.2.3.4") exCfg.rateWindow 0).1) ∧
    (∀ k, k ≠ RKey.rl "start" "1.2.3.4" →
      rlook (session_start exCfg exEmptyState 0 exReq15 "1.2.3.4" "job_x").1.redis k =
        rlook exEmptyState.redis k) ∧
    ((rlook (session_start exCfg exEmptyState 0 exReq15 "1.2.3.4" "job_x").1.redis
        (RKey.rl "start" "1.2.3.4")).map REntry.val =
      some (.num (rlCheck exEmptyState.redis (.rl "start" "1.2.3.4")
        exCfg.rateWindow 0).2)) :=
  ⟨by decide,
   session_start_bad_window exCfg exEmptyState 0 exReq15 "1.2.3.4" "job_x" (by decide)⟩

/-!
## C9 — `session/next` counts against both rate-limit buckets
-/

/-- C9: `session_next` first checks and increments the `next` counter and
then delegates to `session_start`, which checks and increments the `start`
counter; incrementing `next` does not disturb the `start` counter; the call
is denied (429) iff the `next` maximum or the `start` maximum is exceeded;
and when the `next` check passes, the final state stores both post-increment
counters. -/
theorem session_next_double_rate_limit (cfg : EnvCfg) (st : SState) (now : Nat)
    (req : SessionStartRequest) (ip fid : String) :
    (session_next cfg st now req ip fid =
      if cfg.nextMax < (rlCheck st.redis (.rl "next" ip) cfg.rateWindow now).2 then
        ({ st with redis := (rlCheck st.redis (.rl "next" ip) cfg.rateWindow now).1 },
          .rateLimited)
      else
        session_start cfg
          { st with redis := (rlCheck st.redis (.rl "next" ip) cfg.rateWindow now).1 }
          now req ip fid) ∧
    ((rlCheck (rlCheck st.redis (.rl "next" ip) cfg.rateWindow now).1
        (.rl "start" ip) cfg.rateWindow now).2 =
      (rlCheck st.redis (.rl "start" ip) cfg.rateWindow now).2) ∧
    ((session_next cfg st now req ip fid).2 = .rateLimited ↔
      (cfg.nextMax < (rlCheck st.redis (.rl "next" ip) cfg.rateWindow now).2 ∨
        cfg.startMax < (rlCheck st.redis (.rl "start" ip) cfg.rateWindow now).2)) ∧
    (¬ cfg.nextMax < (rlCheck st.redis (.rl "next" ip) cfg.rateWindow now).2 →
      (rlook (session_next cfg st now req ip fid).1.redis (RKey.rl "next" ip)).map
          REntry.val =
        some (.num (rlCheck st.redis (.rl "next" ip) cfg.rateWindow now).2) ∧
      (rlook (session_next cfg st now req ip fid).1.redis (RKey.rl "start" ip)).map
          REntry.val =
        some (.num (rlCheck st.redis (.rl "start" ip) cfg.rateWindow now).2)) := by
  have hstart_ne_next : RKey.rl "next" ip ≠ RKey.rl "start" ip :=
    rl_ne_rl_of_kind _ _ _ _ (by decide)
  have hnext_ne_start : RKey.rl "start" ip ≠ RKey.rl "next" ip :=
    rl_ne_rl_of_kind _ _ _ _ (by decide)
  have hshape : session_next cfg st now req ip fid =
      if cfg.nextMax < (rlCheck st.redis (.rl "next" ip) cfg.rateWindow now).2 then
        ({ st with redis := (rlCheck st.redis (.rl "next" ip) cfg.rateWindow now).1 },
          .rateLimited)
      else
        session_start cfg
          { st with redis := (rlCheck st.redis (.rl "next" ip) cfg.rateWindow now).1 }
          now req ip fid := by
    unfold session_next
    by_cases hc : cfg.nextMax < (rlCheck st.redis (.rl "next" ip) cfg.rateWindow now).2
    · simp [hc]
    · simp [hc]
  have hcount : (rlCheck (rlCheck st.redis (.rl "next" ip) cfg.rateWindow now).1
      (.rl "start" ip) cfg.rateWindow now).2 =
      (rlCheck st.redis (.rl "start" ip) cfg.rateWindow now).2 :=
    rlCheck_count_congr _ _ _ _ _
      (rlook_rlCheck_ne _ _ _ _ _ hnext_ne_start)
  refine ⟨hshape, hcount, ?_, ?_⟩
  · rw [hshape]
    by_cases hc : cfg.nextMax < (rlCheck st.redis (.rl "next" ip) cfg.rateWindow now).2
    · simp [hc]
    · rw [if_neg hc]
      rw [session_start_rateLimited_iff]
      simp only [hcount]
      constructor
      · intro h; exact Or.inr h
      · intro h
        rcases h with h | h
        · exact absurd h hc
        · exact h
  · intro hc
    rw [hshape, if_neg hc]
    constructor
    · rw [session_start_rl_preserved cfg _ now req ip fid _
        (fun ch si sz vp => rl_ne_idem _ _ _ _ _ _)]
      rw [rlook_rlCheck_ne _ _ _ _ _ hstart_ne_next]
      exact rlook_rlCheck_val _ _ _ _
    · rw [session_start_rl_preserved cfg _ now req ip fid _
        (fun ch si sz vp => rl_ne_idem _ _ _ _ _ _)]
      rw [rlook_rlCheck_val]
      rw [hcount]

/-- C9 (witness): `session_next_double_rate_limit` at a concrete empty
state; the implication hypothesis (the `next` check passes: counter 1 is not
above the maximum 20) is discharged by computation. -/
theorem session_next_double_rate_limit_witness :
    ((session_next exCfg exEmptyState 0 exReq15 "1.2.3.4" "job_x").2 = .rateLimited ↔
      (exCfg.nextMax <
          (rlCheck exEmptyState.redis (.rl "next" "1.2.3.4") exCfg.rateWindow 0).2 ∨
        exCfg.startMax <
          (rlCheck exEmptyState.redis (.rl "start" "1.2.3.4") exCfg.rateWindow 0).2)) ∧
    (¬ exCfg.nextMax <
        (rlCheck exEmptyState.redis (.rl "next" "1.2.3.4") exCfg.rateWindow 0).2) ∧
    ((rlook (session_next exCfg exEmptyState 0 exReq15 "1.2.3.4" "job_x").1.redis
        (RKey.rl "next" "1.2.3.4")).map REntry.val =
      some (.num (rlCheck exEmptyState.redis (.rl "next" "1.2.3.4")
        exCfg.rateWindow 0).2)) ∧
    ((rlook (session_next exCfg exEmptyState 0 exReq15 "1.2.3.4" "job_x").1.redis
        (RKey.rl "start" "1.2.3.4")).map REntry.val =
      some (.num (rlCheck exEmptyState.redis (.rl "start" "1.2.3.4")
        exCfg.rateWindow 0).2)) :=
  ⟨(session_next_double_rate_limit exCfg exEmptyState 0 exReq15 "1.2.3.4" "job_x").2.2.1,
   by decide,
   ((session_next_double_rate_limit exCfg exEmptyState 0 exReq15 "1.2.3.4"
      "job_x").2.2.2 (by decide)).1,
   ((session_next_double_rate_limit exCfg exEmptyState 0 exReq15 "1.2.3.4"
      "job_x").2.2.2 (by decide)).2⟩

/-!
## C1 — idempotent session start
-/

lemma rl_ne_snap (kind ip j : String) : RKey.rl kind ip ≠ RKey.snap j := by
  intro h
  cases h

/-- Two key-sorted association lists with duplicate-free keys that are
permutations of each other are equal. -/
lemma sorted_key_nodup_perm_eq :
    ∀ (l1 l2 : List (String × String)), l1.Perm l2 →
      l1.Sorted keyLe → l2.Sorted keyLe → (l1.map Prod.fst).Nodup → l1 = l2 := by
  intro l1
  induction l1 with
  | nil =>
      intro l2 hp _ _ _
      exact (hp.symm.eq_nil).symm
  | cons a t1 ih =>
      intro l2 hp hs1 hs2 hn
      cases l2 with
      | nil => cases hp.eq_nil
      | cons b t2 =>
          have hn' : a.1 ∉ List.map Prod.fst t1 ∧ (List.map Prod.fst t1).Nodup := by
            rw [List.map_cons] at hn
            exact List.nodup_cons.mp hn
          by_cases hab : a = b
          · subst hab
            have ht : t1 = t2 :=
              ih t2 hp.cons_inv hs1.of_cons hs2.of_cons hn'.2
            rw [ht]
          · exfalso
            have ha2 : a ∈ t2 := by
              have : a ∈ b :: t2 := hp.subset (List.mem_cons_self a t1)
              rcases List.mem_cons.mp this with h | h
              · exact absurd h hab
              · exact h
            have hb1 : b ∈ t1 := by
              have : b ∈ a :: t1 := hp.symm.subset (List.mem_cons_self b t2)
              rcases List.mem_cons.mp this with h | h
              · exact absurd h.symm hab
              · exact h
            have hba : keyLe b a := List.rel_of_sorted_cons hs2 a ha2
            have hab' : keyLe a b := List.rel_of_sorted_cons hs1 b hb1
            have hkey : a.1 = b.1 := strLe_antisymm hab' hba
            exact hn'.1 (hkey ▸ List.mem_map_of_mem Prod.fst hb1)

/-- Sorting by key is invariant under reordering of a duplicate-free-keyed
mapping: the canonicalization step of the idempotency key. -/
lemma sortByKey_congr (l1 l2 : List (String × String)) (hp : l1.Perm l2)
    (hn : (l1.map Prod.fst).Nodup) : sortByKey l1 = sortByKey l2 := by
  apply sorted_key_nodup_perm_eq
  · exact (List.perm_insertionSort keyLe l1).trans
      (hp.trans (List.perm_insertionSort keyLe l2).symm)
  · exact List.sorted_insertionSort keyLe l1
  · exact List.sorted_insertionSort keyLe l2
  · have hperm : List.Perm ((sortByKey l1).map Prod.fst) (l1.map Prod.fst) :=
      (List.perm_insertionSort keyLe l1).map Prod.fst
    exact hperm.nodup_iff.mpr hn

/-- Requests with the same chapter, the same window, and voice packs equal
as maps (any key order) canonicalize to the same idempotency key. -/
lemma computeIdempotencyKey_congr (req1 req2 : SessionStartRequest)
    (hch : req1.chapter_id = req2.chapter_id) (hw : req1.window = req2.window)
    (hvp : req1.voice_pack.Perm req2.voice_pack)
    (hnd : (req1.voice_pack.map Prod.fst).Nodup) :
    computeIdempotencyKeyForStart req1 = computeIdempotencyKeyForStart req2 := by
  unfold computeIdempotencyKeyForStart
  rw [hch, hw, sortByKey_congr _ _ hvp hnd]

/-- The idempotent-reuse branch of `session_start`: a live mapping whose
target is still resolvable short-circuits job creation. -/
lemma session_start_reuse (cfg : EnvCfg) (st : SState) (now : Nat)
    (req : SessionStartRequest) (ip fid j1 : String)
    (hc : ¬ cfg.startMax < (rlCheck st.redis (.rl "start" ip) cfg.rateWindow now).2)
    (h20 : ¬ req.window.size ≠ 20)
    (hg : rget (rlCheck st.redis (.rl "start" ip) cfg.rateWindow now).1
        (computeIdempotencyKeyForStart req) now = some (.str j1))
    (hres : (rexists (rlCheck st.redis (.rl "start" ip) cfg.rateWindow now).1
        (.snap j1) now || (jlookup st.jobs j1).isSome) = true) :
    session_start cfg st now req ip fid =
      ({ st with redis := (rlCheck st.redis (.rl "start" ip) cfg.rateWindow now).1 },
        .okStart j1 "presigned") := by
  unfold session_start
  rw [if_neg hc, if_neg h20]
  simp only []
  rw [hg]
  simp [hres]

/-- The creation branch of `session_start`: no live mapping means a fresh
job, a fresh idempotency mapping armed with the idempotency TTL, and a
`"direct"` upload response. -/
lemma session_start_create (cfg : EnvCfg) (st : SState) (now : Nat)
    (req : SessionStartRequest) (ip fid : String)
    (hc : ¬ cfg.startMax < (rlCheck st.redis (.rl "start" ip) cfg.rateWindow now).2)
    (h20 : ¬ req.window.size ≠ 20)
    (hg : rget (rlCheck st.redis (.rl "start" ip) cfg.rateWindow now).1
        (computeIdempotencyKeyForStart req) now = none) :
    session_start cfg st now req ip fid =
      ({ redis := rexpire
            (rset (rlCheck st.redis (.rl "start" ip) cfg.rateWindow now).1
              (computeIdempotencyKeyForStart req) (.str fid))
            (computeIdempotencyKeyForStart req) cfg.idempTtl now,
          jobs := (fid, mkJob fid req.window.size) :: st.jobs },
        .okStart fid "direct") := by
  unfold session_start
  rw [if_neg hc, if_neg h20]
  simp only []
  rw [hg]

/-- C1: two `start` requests with identical canonical payload (same chapter
id, same window, voice packs equal as maps in any key order) canonicalize to
the same idempotency key; while the mapping written for the first is still
live and its job still resolvable (in the registry, or with a durable
snapshot), the second call returns the first job id and creates no job; and
when the mapping has expired (`rget` is `none`), the call creates a fresh
job under the freshly drawn id, registering a mapping that is live strictly
before `now + idempotency TTL` and dead from then on. -/
theorem session_start_idempotent (cfg : EnvCfg) (st : SState) (now : Nat)
    (req1 req2 : SessionStartRequest) (ip fid j1 : String)
    (hch : req1.chapter_id = req2.chapter_id)
    (hw : req1.window = req2.window)
    (hvp : req1.voice_pack.Perm req2.voice_pack)
    (hnd : (req1.voice_pack.map Prod.fst).Nodup)
    (hsz : req2.window.size = 20)
    (hrl : ¬ cfg.startMax < (rlCheck st.redis (.rl "start" ip) cfg.rateWindow now).2) :
    (computeIdempotencyKeyForStart req1 = computeIdempotencyKeyForStart req2) ∧
    (rget st.redis (computeIdempotencyKeyForStart req1) now = some (.str j1) →
      (rexists st.redis (.snap j1) now = true ∨ (jlookup st.jobs j1).isSome = true) →
      session_start cfg st now req2 ip fid =
        ({ st with redis := (rlCheck st.redis (.rl "start" ip) cfg.rateWindow now).1 },
          .okStart j1 "presigned")) ∧
    (rget st.redis (computeIdempotencyKeyForStart req1) now = none →
      (session_start cfg st now req2 ip fid).2 = .okStart fid "direct" ∧
      (session_start cfg st now req2 ip fid).1.jobs = (fid, mkJob fid 20) :: st.jobs ∧
      (∀ t, t < now + cfg.idempTtl →
        rget (session_start cfg st now req2 ip fid).1.redis
          (computeIdempotencyKeyForStart req1) t = some (.str fid)) ∧
      (∀ t, now + cfg.idempTtl ≤ t →
        rget (session_start cfg st now req2 ip fid).1.redis
          (computeIdempotencyKeyForStart req1) t = none)) := by
  have hkey := computeIdempotencyKey_congr req1 req2 hch hw hvp hnd
  have h20 : ¬ req2.window.size ≠ 20 := by
    intro h; exact h hsz
  have hne2 : computeIdempotencyKeyForStart req2 ≠ RKey.rl "start" ip :=
    Ne.symm (rl_ne_idem "start" ip req2.chapter_id req2.window.start_index
      req2.window.size (sortByKey req2.voice_pack))
  have hpres : rlook (rlCheck st.redis (.rl "start" ip) cfg.rateWindow now).1
      (computeIdempotencyKeyForStart req2) = rlook st.redis
      (computeIdempotencyKeyForStart req2) :=
    rlook_rlCheck_ne _ _ _ _ _ hne2
  refine ⟨hkey, ?_, ?_⟩
  · intro hg hres
    have hg2 : rget (rlCheck st.redis (.rl "start" ip) cfg.rateWindow now).1
        (computeIdempotencyKeyForStart req2) now = some (.str j1) := by
      rw [rget_of_rlook_eq hpres now, ← hkey]
      exact hg
    have hsnap : rexists (rlCheck st.redis (.rl "start" ip) cfg.rateWindow now).1
        (.snap j1) now = rexists st.redis (.snap j1) now := by
      unfold rexists
      rw [rget_of_rlook_eq (rlook_rlCheck_ne _ _ _ _ _
        (Ne.symm (rl_ne_snap "start" ip j1))) now]
    have hres2 : (rexists (rlCheck st.redis (.rl "start" ip) cfg.rateWindow now).1
        (.snap j1) now || (jlookup st.jobs j1).isSome) = true := by
      rw [hsnap]
      rcases hres with h | h
      · rw [h]
        rfl
      · rw [h]
        simp
    exact session_start_reuse cfg st now req2 ip fid j1 hrl h20 hg2 hres2
  · intro hg
    have hg2 : rget (rlCheck st.redis (.rl "start" ip) cfg.rateWindow now).1
        (computeIdempotencyKeyForStart req2) now = none := by
      rw [rget_of_rlook_eq hpres now, ← hkey]
      exact hg
    have hcr := session_start_create cfg st now req2 ip fid hrl h20 hg2
    have hred : (session_start cfg st now req2 ip fid).1.redis =
        rput (rset (rlCheck st.redis (.rl "start" ip) cfg.rateWindow now).1
            (computeIdempotencyKeyForStart req2) (.str fid))
          (computeIdempotencyKeyForStart req2)
          ⟨.str fid, some (now + cfg.idempTtl)⟩ := by
      rw [hcr]
      show rexpire _ _ _ _ = _
      unfold rexpire
      rw [show rlook (rset (rlCheck st.redis (.rl "start" ip) cfg.rateWindow now).1
          (computeIdempotencyKeyForStart req2) (.str fid))
          (computeIdempotencyKeyForStart req2) =
          some ⟨.str fid, none⟩ from rlook_rput_self _ _ _]
      rfl
    refine ⟨by rw [hcr], by rw [hcr]; simp [hsz], ?_, ?_⟩
    · intro t ht
      rw [hred, hkey]
      unfold rget
      rw [rlook_rput_self]
      simp [rlive, ht]
    · intro t ht
      rw [hred, hkey]
      unfold rget
      rw [rlook_rput_self]
      have : ¬ t < now + cfg.idempTtl := by omega
      simp [rlive, this]

/-- Voice pack of the first request in the C1 witness. -/
def exReqA : SessionStartRequest :=
  { chapter_id := "ch-9", voice_pack := [("hero", "v1"), ("villain", "v2")],
    window := ⟨0, 20⟩, client := ⟨"ios", "1.0"⟩ }

/-- The same canonical payload with the voice pack reordered and a different
client descriptor. -/
def exReqB : SessionStartRequest :=
  { chapter_id := "ch-9", voice_pack := [("villain", "v2"), ("hero", "v1")],
    window := ⟨0, 20⟩, client := ⟨"android", "1.1"⟩ }

/-- Server state after the first call: the mapping for `exReqA`'s canonical
key points at `job_a` (expiring at 3600) and `job_a` is in the registry. -/
def exStateWithJob : SState :=
  ⟨⟨[(computeIdempotencyKeyForStart exReqA, ⟨.str "job_a", some 3600⟩)]⟩,
    [("job_a", mkJob "job_a" 20)]⟩

/-- C1 (witness): `session_start_idempotent` at the concrete reordered
request against the concrete post-first-call state: the keys agree and the
second call returns `job_a` with the `"presigned"` reuse payload and an
unchanged registry. -/
theorem session_start_idempotent_witness :
    (computeIdempotencyKeyForStart exReqA = computeIdempotencyKeyForStart exReqB) ∧
    session_start exCfg exStateWithJob 0 exReqB "1.2.3.4" "job_b" =
      ({ exStateWithJob with
          redis := (rlCheck exStateWithJob.redis (.rl "start" "1.2.3.4")
            exCfg.rateWindow 0).1 },
        .okStart "job_a" "presigned") :=
  ⟨(session_start_idempotent exCfg exStateWithJob 0 exReqA exReqB "1.2.3.4" "job_b"
      "job_a" (by decide) (by decide) (by decide) (by decide) (by decide)
      (by decide)).1,
   (session_start_idempotent exCfg exStateWithJob 0 exReqA exReqB "1.2.3.4" "job_b"
      "job_a" (by decide) (by decide) (by decide) (by decide) (by decide)
      (by decide)).2.1 (by decide) (Or.inr (by decide))⟩

/-!
## C5 — rolling-start gate
-/

lemma pipeStep_preserves (th : Nat) (c c' : Config) (h : pipeStep th c = some c') :
    c'.job.total = c.job.total ∧ c'.job.uploadedPages = c.job.uploadedPages ∧
    c'.job.magiStartEvent = c.job.magiStartEvent ∧ c'.job.jobId = c.job.jobId ∧
    c'.timedOut = c.timedOut := by
  unfold pipeStep at h
  split at h
  all_goals try split at h
  all_goals first
    | (cases h; exact ⟨rfl, rfl, rfl, rfl, rfl⟩)
    | cases h

lemma uploadPage_preserves (th : Nat) (job : JobState) (idx : Int) (ct : String)
    (bl : Nat) :
    (uploadPage th job idx ct bl).job.total = job.total ∧
    (uploadPage th job idx ct bl).job.jobId = job.jobId ∧
    (uploadPage th job idx ct bl).job.done = job.done := by
  unfold uploadPage
  split
  · exact ⟨rfl, rfl, rfl⟩
  · split
    · exact ⟨rfl, rfl, rfl⟩
    · simp only []
      split
      · exact ⟨rfl, rfl, rfl⟩
      · exact ⟨rfl, rfl, rfl⟩

lemma stepFn_total (th : Nat) (c c' : Config) (a : Act)
    (h : stepFn th c a = some c') : c'.job.total = c.job.total := by
  cases a with
  | pipe => exact (pipeStep_preserves th c c' h).1
  | fireTimeout => cases h; rfl
  | upload idx ct bl =>
      cases h
      exact (uploadPage_preserves th c.job idx ct bl).1

/-- The rolling-start latch invariant: the latch is set exactly when the
uploaded-page count has reached `min(threshold, total)`. -/
def latchInv (th : Nat) (c : Config) : Prop :=
  c.job.magiStartEvent = true ↔ min th c.job.total ≤ c.job.uploadedPages.card

lemma uploadPage_latch_card (th : Nat) (job : JobState) (idx : Int) (ct : String)
    (bl : Nat) :
    ((uploadPage th job idx ct bl).job.uploadedPages = job.uploadedPages ∧
      (uploadPage th job idx ct bl).job.magiStartEvent = job.magiStartEvent) ∨
    ((uploadPage th job idx ct bl).job.uploadedPages = insert idx job.uploadedPages ∧
      (uploadPage th job idx ct bl).job.magiStartEvent =
        (if min th job.total ≤ (insert idx job.uploadedPages).card then true
          else job.magiStartEvent)) := by
  unfold uploadPage
  split
  · left; exact ⟨rfl, rfl⟩
  · split
    · left; exact ⟨rfl, rfl⟩
    · simp only []
      split
      · right; exact ⟨rfl, rfl⟩
      · right; exact ⟨rfl, rfl⟩

lemma latchInv_upload (th : Nat) (job : JobState) (idx : Int) (ct : String)
    (bl : Nat)
    (hI : job.magiStartEvent = true ↔ min th job.total ≤ job.uploadedPages.card) :
    (uploadPage th job idx ct bl).job.magiStartEvent = true ↔
      min th job.total ≤ (uploadPage th job idx ct bl).job.uploadedPages.card := by
  rcases uploadPage_latch_card th job idx ct bl with ⟨hu, hm⟩ | ⟨hu, hm⟩
  · rw [hu, hm]
    exact hI
  · rw [hu, hm]
    by_cases hc : min th job.total ≤ (insert idx job.uploadedPages).card
    · simp [hc]
    · rw [if_neg hc]
      constructor
      · intro hev
        exfalso
        have h1 := hI.mp hev
        have h2 : job.uploadedPages.card ≤ (insert idx job.uploadedPages).card :=
          Finset.card_le_card (Finset.subset_insert _ _)
        omega
      · intro hle
        exact absurd hle hc

lemma latchInv_step (th : Nat) (c c' : Config) (a : Act)
    (hs : stepFn th c a = some c') (hI : latchInv th c) : latchInv th c' := by
  cases a with
  | pipe =>
      have hp := pipeStep_preserves th c c' hs
      unfold latchInv at hI ⊢
      rw [hp.1, hp.2.1, hp.2.2.1]
      exact hI
  | fireTimeout =>
      cases hs
      exact hI
  | upload idx ct bl =>
      cases hs
      unfold latchInv at hI ⊢
      have ht := (uploadPage_preserves th c.job idx ct bl).1
      rw [ht]
      exact latchInv_upload th c.job idx ct bl hI

lemma runTrace_latchInv (th : Nat) : ∀ (acts : List Act) (c c' : Config),
    runTrace th c acts = some c' → latchInv th c →
    latchInv th c' ∧ c'.job.total = c.job.total := by
  intro acts
  induction acts with
  | nil =>
      intro c c' h hI
      cases h
      exact ⟨hI, rfl⟩
  | cons a rest ih =>
      intro c c' h hI
      unfold runTrace at h
      cases hs : stepFn th c a with
      | none => rw [hs] at h; cases h
      | some c1 =>
          rw [hs] at h
          have hI1 := latchInv_step th c c1 a hs hI
          have ht1 := stepFn_total th c c1 a hs
          have hrest := ih c1 c' h hI1
          exact ⟨hrest.1, hrest.2.trans ht1⟩

/-- C5: along every valid interleaving from a fresh job (with
`min(threshold, total) > 0`), the rolling-start latch is set exactly when
the count of distinct uploaded page indices has reached
`min(threshold, total)`; and the pipeline task can step past its
rolling-start wait only when that count has been reached or the bounded wait
timeout has fired. -/
theorem rolling_start_gate (th total : Nat) (jobId : String) (acts : List Act)
    (c' : Config) (hmin : 0 < min th total)
    (hrun : runTrace th (initConfig jobId total) acts = some c') :
    (c'.job.magiStartEvent = true ↔ min th total ≤ c'.job.uploadedPages.card) ∧
    (c'.pc = .waitStart → ∀ c'', stepFn th c' .pipe = some c'' →
      min th total ≤ c'.job.uploadedPages.card ∨ c'.timedOut = true) := by
  have hI0 : latchInv th (initConfig jobId total) := by
    unfold latchInv initConfig mkJob
    simp only [Finset.card_empty]
    constructor
    · intro h
      cases h
    · intro h
      exfalso
      omega
  have hmain := runTrace_latchInv th acts _ c' hrun hI0
  have htot : c'.job.total = total := hmain.2
  have hInv : c'.job.magiStartEvent = true ↔
      min th total ≤ c'.job.uploadedPages.card := by
    have h := hmain.1
    unfold latchInv at h
    rw [htot] at h
    exact h
  refine ⟨hInv, ?_⟩
  intro hpc c'' hstep
  have hps : stepFn th c' Act.pipe = pipeStep th c' := rfl
  rw [hps] at hstep
  unfold pipeStep at hstep
  rw [hpc] at hstep
  simp only [] at hstep
  split at hstep
  · rename_i hguard
    rw [Bool.or_assoc] at hguard
    rcases Bool.or_eq_true_iff.mp hguard with hcard | hrestg
    · left
      rw [← htot]
      exact of_decide_eq_true hcard
    · rcases Bool.or_eq_true_iff.mp hrestg with hev | hto
      · left
        exact hInv.mp hev
      · right
        exact hto
  · cases hstep

/-- The trace used in the C5 witness: four uploads then the pipeline's
initial 20 `queued` emissions and the step onto the rolling-start wait. -/
def exActsC5 : List Act :=
  [Act.upload 0 "image/png" 1, Act.upload 1 "image/png" 1,
   Act.upload 2 "image/png" 1, Act.upload 3 "image/png" 1] ++
    List.replicate 21 Act.pipe

/-- The configuration reached by `exActsC5`. -/
def exCfgC5 : Config :=
  (runTrace 4 (initConfig "j" 20) exActsC5).getD (initConfig "j" 20)

/-- C5 (witness): with window size 20 and threshold 4, uploading pages 0–3
sets the latch (4 = min 4 20 ≤ 4 uploads) and the pipeline may step past its
rolling-start wait without any timeout. -/
theorem rolling_start_gate_witness :
    (0 : Nat) < min 4 20 ∧
    runTrace 4 (initConfig "j" 20) exActsC5 = some exCfgC5 ∧
    (exCfgC5.job.magiStartEvent = true ↔
      min 4 20 ≤ exCfgC5.job.uploadedPages.card) ∧
    (exCfgC5.pc = .waitStart → ∀ c'', stepFn 4 exCfgC5 .pipe = some c'' →
      min 4 20 ≤ exCfgC5.job.uploadedPages.card ∨ exCfgC5.timedOut = true) :=
  ⟨by decide, by decide,
   (rolling_start_gate 4 20 "j" exActsC5 exCfgC5 (by decide) (by decide)).1,
   (rolling_start_gate 4 20 "j" exActsC5 exCfgC5 (by decide) (by decide)).2⟩

/-!
## C2/C3 — page-state monotonicity and the done counter

The pipeline invariant below describes the job between any two suspension
points, for interleavings whose uploads are "tame": every mutating upload
targets a page still in `queued` or `extracting`.
-/

/-- All pages before index `i` have reached `ready`. -/
def pagesBelow (pages : List Page) (i : Nat) : Prop :=
  ∀ j p, pages.get? j = some p → j < i → p.state = PState.ready

/-- The page at index `i` (when present) satisfies `P`. -/
def pageAt (pages : List Page) (i : Nat) (P : PState → Prop) : Prop :=
  ∀ p, pages.get? i = some p → P p.state

/-- All pages after index `i` are still `queued` or `extracting`. -/
def pagesAbove (pages : List Page) (i : Nat) : Prop :=
  ∀ j p, pages.get? j = some p → i < j → p.state.rank ≤ 1

/-- All pages are still `queued` or `extracting`. -/
def pagesEarly (pages : List Page) : Prop :=
  ∀ p ∈ pages, p.state.rank ≤ 1

/-- All pages have reached `ready`. -/
def pagesAllReady (pages : List Page) : Prop :=
  ∀ p ∈ pages, p.state = PState.ready

/-- Shape of a job at each position of the pipeline task, under tame
uploads: passed pages are `ready`, the page in flight is at the stage the
program counter says, later pages have not advanced beyond `extracting`, the
page dict always has exactly `total` keys, and `done` counts the `ready`
pages. -/
def TInvCore (total done : Nat) (pages : List Page) (pc : PC) : Prop :=
  pages.length = total ∧
  done = countReady pages ∧
  (match pc with
    | .emitQueued _ => pagesEarly pages
    | .waitStart => pagesEarly pages
    | .procExtract i => i < total ∧ pagesBelow pages i ∧
        pageAt pages i (fun s => s.rank ≤ 1) ∧ pagesAbove pages i
    | .procTts i => i < total ∧ pagesBelow pages i ∧
        pageAt pages i (fun s => s = PState.extracting) ∧ pagesAbove pages i
    | .procReady i => i < total ∧ pagesBelow pages i ∧
        pageAt pages i (fun s => s = PState.tts) ∧ pagesAbove pages i
    | .procProgress i => i < total ∧ pagesBelow pages (i + 1) ∧ pagesAbove pages i
    | .emitDone => pagesAllReady pages
    | .finished => pagesAllReady pages)

/-- The pipeline invariant of a configuration. -/
def TInv (c : Config) : Prop :=
  TInvCore c.job.total c.job.done c.job.pages c.pc

lemma countReady_set (pages : List Page) (i : Nat) (p a : Page)
    (hget : pages.get? i = some p) :
    countReady (pages.set i a) + (if p.state = PState.ready then 1 else 0) =
      countReady pages + (if a.state = PState.ready then 1 else 0) := by
  obtain ⟨hlt, hgv⟩ := List.get?_eq_some.mp hget
  have hc := countP_set pages (fun q => q.state == PState.ready) i a hlt
  rw [hgv] at hc
  simp only [beq_iff_eq] at hc
  unfold countReady
  simpa using hc

lemma rank_le_one_ne_ready {s : PState} (h : s.rank ≤ 1) : s ≠ PState.ready := by
  intro he
  rw [he] at h
  simp [PState.rank] at h

lemma countReady_mkJob (jobId : String) (total : Nat) :
    countReady (mkJob jobId total).pages = 0 := by
  unfold countReady mkJob
  rw [List.countP_eq_zero]
  intro p hp
  rcases List.mem_map.mp hp with ⟨i, _, rfl⟩
  simp

/-- Invariant preservation across one atomic pipeline block. -/
lemma TInv_pipeStep (th : Nat) (c c' : Config) (h : pipeStep th c = some c')
    (hI : TInv c) : TInv c' := by
  obtain ⟨job, pc, tout⟩ := c
  obtain ⟨hlen, hdone, hpc⟩ := hI
  dsimp only at hlen hdone hpc
  cases pc with
  | emitQueued k =>
      unfold pipeStep at h
      simp only [] at h
      split at h <;> cases h <;> exact ⟨hlen, hdone, hpc⟩
  | waitStart =>
      have hpe : pagesEarly job.pages := hpc
      unfold pipeStep at h
      simp only [] at h
      split at h
      · cases h
        show TInv ⟨job, if 0 < job.total then PC.procExtract 0 else PC.emitDone, tout⟩
        by_cases h0 : 0 < job.total
        · rw [if_pos h0]
          refine ⟨hlen, hdone, h0, ?_, ?_, ?_⟩
          · intro j p _ hj
            exact absurd hj (Nat.not_lt_zero j)
          · intro p hget
            exact hpe p (List.get?_mem hget)
          · intro j p hget _
            exact hpe p (List.get?_mem hget)
        · rw [if_neg h0]
          refine ⟨hlen, hdone, ?_⟩
          intro p hp
          exfalso
          have hl0 : job.pages.length = 0 := by omega
          rw [List.length_eq_zero] at hl0
          rw [hl0] at hp
          cases hp
      · cases h
  | procExtract i =>
      unfold pipeStep at h
      simp only [] at h
      cases hg : job.pages.get? i with
      | none => rw [hg] at h; cases h
      | some p =>
          rw [hg] at h
          cases h
          obtain ⟨hi, hbelow, hat, habove⟩ := hpc
          have hrank : p.state.rank ≤ 1 := hat p hg
          have hpne := rank_le_one_ne_ready hrank
          obtain ⟨hlt, _⟩ := List.get?_eq_some.mp hg
          show TInvCore job.total job.done
            (job.pages.set i { p with state := PState.extracting }) (PC.procTts i)
          refine ⟨by simpa using hlen, ?_, hi, ?_, ?_, ?_⟩
          · have hcnt := countReady_set job.pages i p
              { p with state := PState.extracting } hg
            rw [if_neg hpne] at hcnt
            have hne2 : ({ p with state := PState.extracting } : Page).state ≠
                PState.ready := by
              intro he
              cases he
            rw [if_neg hne2] at hcnt
            omega
          · intro j q hget hj
            rw [List.get?_set_ne _ _ (by omega : i ≠ j)] at hget
            exact hbelow j q hget hj
          · intro q hget
            rw [List.get?_set_eq_of_lt _ hlt] at hget
            cases hget
            rfl
          · intro j q hget hj
            rw [List.get?_set_ne _ _ (by omega : i ≠ j)] at hget
            exact habove j q hget hj
  | procTts i =>
      unfold pipeStep at h
      simp only [] at h
      cases hg : job.pages.get? i with
      | none => rw [hg] at h; cases h
      | some p =>
          rw [hg] at h
          cases h
          obtain ⟨hi, hbelow, hat, habove⟩ := hpc
          have hx : p.state = PState.extracting := hat p hg
          have hpne : p.state ≠ PState.ready := by
            rw [hx]
            intro he
            cases he
          obtain ⟨hlt, _⟩ := List.get?_eq_some.mp hg
          show TInvCore job.total job.done
            (job.pages.set i { p with state := PState.tts }) (PC.procReady i)
          refine ⟨by simpa using hlen, ?_, hi, ?_, ?_, ?_⟩
          · have hcnt := countReady_set job.pages i p
              { p with state := PState.tts } hg
            rw [if_neg hpne] at hcnt
            have hne2 : ({ p with state := PState.tts } : Page).state ≠
                PState.ready := by
              intro he
              cases he
            rw [if_neg hne2] at hcnt
            omega
          · intro j q hget hj
            rw [List.get?_set_ne _ _ (by omega : i ≠ j)] at hget
            exact hbelow j q hget hj
          · intro q hget
            rw [List.get?_set_eq_of_lt _ hlt] at hget
            cases hget
            rfl
          · intro j q hget hj
            rw [List.get?_set_ne _ _ (by omega : i ≠ j)] at hget
            exact habove j q hget hj
  | procReady i =>
      unfold pipeStep at h
      simp only [] at h
      cases hg : job.pages.get? i with
      | none => rw [hg] at h; cases h
      | some p =>
          rw [hg] at h
          cases h
          obtain ⟨hi, hbelow, hat, habove⟩ := hpc
          have hx : p.state = PState.tts := hat p hg
          have hpne : p.state ≠ PState.ready := by
            rw [hx]
            intro he
            cases he
          obtain ⟨hlt, _⟩ := List.get?_eq_some.mp hg
          show TInvCore job.total (job.done + 1)
            (job.pages.set i
              { p with state := PState.ready, audio := some (audioRef job.jobId i) })
            (PC.procProgress i)
          refine ⟨by simpa using hlen, ?_, hi, ?_, ?_⟩
          · have hcnt := countReady_set job.pages i p
              { p with state := PState.ready, audio := some (audioRef job.jobId i) }
              hg
            rw [if_neg hpne] at hcnt
            have hye : Page.state { p with state := PState.ready, audio := some (audioRef job.jobId i) } = PState.ready := rfl
            rw [if_pos hye] at hcnt
            omega
          · intro j q hget hj
            by_cases hji : j = i
            · subst hji
              rw [List.get?_set_eq_of_lt _ hlt] at hget
              cases hget
              rfl
            · rw [List.get?_set_ne _ _ (fun he => hji he.symm)] at hget
              exact hbelow j q hget (by omega)
          · intro j q hget hj
            rw [List.get?_set_ne _ _ (by omega : i ≠ j)] at hget
            exact habove j q hget hj
  | procProgress i =>
      unfold pipeStep at h
      simp only [] at h
      cases h
      obtain ⟨hi, hbelow, habove⟩ := hpc
      show TInv ⟨_, if i + 1 < job.total then PC.procExtract (i + 1) else PC.emitDone,
        tout⟩
      by_cases h1 : i + 1 < job.total
      · rw [if_pos h1]
        refine ⟨hlen, hdone, h1, hbelow, ?_, ?_⟩
        · intro q hget
          exact habove (i + 1) q hget (Nat.lt_succ_self i)
        · intro j q hget hj
          exact habove j q hget (by omega)
      · rw [if_neg h1]
        refine ⟨hlen, hdone, ?_⟩
        show pagesAllReady job.pages
        intro q hq
        obtain ⟨n, hget⟩ := List.mem_iff_get?.mp hq
        obtain ⟨hn, _⟩ := List.get?_eq_some.mp hget
        exact hbelow n q hget (by omega)
  | emitDone =>
      unfold pipeStep at h
      simp only [] at h
      cases h
      exact ⟨hlen, hdone, hpc⟩
  | finished =>
      unfold pipeStep at h
      simp only [] at h
      cases h

/-- Case split on the effect of one `upload_page` call: either the page dict
is untouched, or (all gates passed, index in range) exactly one page is
reset to `extracting`. -/
lemma uploadPage_cases (th : Nat) (job : JobState) (idx : Int) (ct : String)
    (bl : Nat) :
    ((uploadPage th job idx ct bl).job.pages = job.pages ∧
      (uploadPage th job idx ct bl).job.done = job.done) ∨
    (ctypeOk ct = true ∧ bl ≤ MAX_PNG_BYTES ∧
      ∃ p, pageLookup job idx = some p ∧
        (uploadPage th job idx ct bl).job.pages =
          job.pages.set idx.toNat { p with state := PState.extracting } ∧
        (uploadPage th job idx ct bl).job.done = job.done) := by
  unfold uploadPage
  by_cases h1 : !ctypeOk ct
  · rw [if_pos h1]
    left
    exact ⟨rfl, rfl⟩
  · rw [if_neg h1]
    by_cases h2 : bl > MAX_PNG_BYTES
    · rw [if_pos h2]
      left
      exact ⟨rfl, rfl⟩
    · rw [if_neg h2]
      simp only []
      have hpl : pageLookup
          { job with
            uploadedPages := insert idx job.uploadedPages
            magiStartEvent :=
              if min th job.total ≤ (insert idx job.uploadedPages).card then true
              else job.magiStartEvent } idx = pageLookup job idx := rfl
      rw [hpl]
      cases hg : pageLookup job idx with
      | none =>
          left
          exact ⟨rfl, rfl⟩
      | some p =>
          right
          refine ⟨by simpa using h1, by omega, p, rfl, rfl, rfl⟩

lemma pageLookup_get? (job : JobState) (idx : Int) (p : Page)
    (h : pageLookup job idx = some p) :
    job.pages.get? idx.toNat = some p := by
  unfold pageLookup at h
  by_cases hneg : idx < 0
  · rw [if_pos hneg] at h
    cases h
  · rw [if_neg hneg] at h
    exact h

lemma pageStateAt_eq (c : Config) (i : Nat) (p : Page)
    (h : c.job.pages.get? i = some p) : pageStateAt c i = p.state := by
  unfold pageStateAt
  rw [List.getD_eq_get?, h]
  rfl

/-- Invariant preservation across one tame `upload_page` call. -/
lemma TInv_upload (th : Nat) (c : Config) (idx : Int) (ct : String) (bl : Nat)
    (hI : TInv c)
    (htame : uploadMutates c idx ct bl = true → (pageStateAt c idx.toNat).rank ≤ 1) :
    TInv { c with job := (uploadPage th c.job idx ct bl).job } := by
  obtain ⟨hlen, hdone, hpc⟩ := hI
  have ht := (uploadPage_preserves th c.job idx ct bl).1
  rcases uploadPage_cases th c.job idx ct bl with ⟨hp, hd⟩ | ⟨hct, hbl, p, hlk, hp, hd⟩
  · show TInvCore _ _ _ _
    rw [ht, hd, hp]
    exact ⟨hlen, hdone, hpc⟩
  · have hget := pageLookup_get? c.job idx p hlk
    have hm : uploadMutates c idx ct bl = true := by
      unfold uploadMutates
      rw [hct, hlk]
      simp [hbl]
    have hrank : p.state.rank ≤ 1 := by
      have := htame hm
      rwa [pageStateAt_eq c idx.toNat p hget] at this
    have hpne := rank_le_one_ne_ready hrank
    obtain ⟨hlt, _⟩ := List.get?_eq_some.mp hget
    show TInvCore _ _ _ _
    rw [ht, hd, hp]
    refine ⟨by simpa using hlen, ?_, ?_⟩
    · have hcnt := countReady_set c.job.pages idx.toNat p
        { p with state := PState.extracting } hget
      rw [if_neg hpne] at hcnt
      have hne2 : ({ p with state := PState.extracting } : Page).state ≠
          PState.ready := by
        intro he
        cases he
      rw [if_neg hne2] at hcnt
      omega
    · cases hcp : c.pc with
      | emitQueued k =>
          rw [hcp] at hpc
          intro q hq
          rcases List.mem_or_eq_of_mem_set hq with hmem | rfl
          · exact hpc q hmem
          · exact le_refl 1
      | waitStart =>
          rw [hcp] at hpc
          intro q hq
          rcases List.mem_or_eq_of_mem_set hq with hmem | rfl
          · exact hpc q hmem
          · exact le_refl 1
      | procExtract i =>
          rw [hcp] at hpc
          obtain ⟨hi, hbelow, hat, habove⟩ := hpc
          refine ⟨hi, ?_, ?_, ?_⟩
          · intro j q hgj hj
            by_cases hji : j = idx.toNat
            · exfalso
              subst hji
              exact hpne (hbelow idx.toNat p hget hj)
            · rw [List.get?_set_ne _ _ (fun he => hji he.symm)] at hgj
              exact hbelow j q hgj hj
          · intro q hgq
            by_cases hii : i = idx.toNat
            · subst hii
              rw [List.get?_set_eq_of_lt _ hlt] at hgq
              cases hgq
              exact le_refl 1
            · rw [List.get?_set_ne _ _ (fun he => hii he.symm)] at hgq
              exact hat q hgq
          · intro j q hgj hj
            by_cases hji : j = idx.toNat
            · subst hji
              rw [List.get?_set_eq_of_lt _ hlt] at hgj
              cases hgj
              exact le_refl 1
            · rw [List.get?_set_ne _ _ (fun he => hji he.symm)] at hgj
              exact habove j q hgj hj
      | procTts i =>
          rw [hcp] at hpc
          obtain ⟨hi, hbelow, hat, habove⟩ := hpc
          refine ⟨hi, ?_, ?_, ?_⟩
          · intro j q hgj hj
            by_cases hji : j = idx.toNat
            · exfalso
              subst hji
              exact hpne (hbelow idx.toNat p hget hj)
            · rw [List.get?_set_ne _ _ (fun he => hji he.symm)] at hgj
              exact hbelow j q hgj hj
          · intro q hgq
            by_cases hii : i = idx.toNat
            · subst hii
              rw [List.get?_set_eq_of_lt _ hlt] at hgq
              cases hgq
              rfl
            · rw [List.get?_set_ne _ _ (fun he => hii he.symm)] at hgq
              exact hat q hgq
          · intro j q hgj hj
            by_cases hji : j = idx.toNat
            · subst hji
              rw [List.get?_set_eq_of_lt _ hlt] at hgj
              cases hgj
              exact le_refl 1
            · rw [List.get?_set_ne _ _ (fun he => hji he.symm)] at hgj
              exact habove j q hgj hj
      | procReady i =>
          rw [hcp] at hpc
          obtain ⟨hi, hbelow, hat, habove⟩ := hpc
          refine ⟨hi, ?_, ?_, ?_⟩
          · intro j q hgj hj
            by_cases hji : j = idx.toNat
            · exfalso
              subst hji
              exact hpne (hbelow idx.toNat p hget hj)
            · rw [List.get?_set_ne _ _ (fun he => hji he.symm)] at hgj
              exact hbelow j q hgj hj
          · intro q hgq
            by_cases hii : i = idx.toNat
            · exfalso
              subst hii
              have := hat p hget
              rw [this] at hrank
              simp [PState.rank] at hrank
            · rw [List.get?_set_ne _ _ (fun he => hii he.symm)] at hgq
              exact hat q hgq
          · intro j q hgj hj
            by_cases hji : j = idx.toNat
            · subst hji
              rw [List.get?_set_eq_of_lt _ hlt] at hgj
              cases hgj
              exact le_refl 1
            · rw [List.get?_set_ne _ _ (fun he => hji he.symm)] at hgj
              exact habove j q hgj hj
      | procProgress i =>
          rw [hcp] at hpc
          obtain ⟨hi, hbelow, habove⟩ := hpc
          refine ⟨hi, ?_, ?_⟩
          · intro j q hgj hj
            by_cases hji : j = idx.toNat
            · exfalso
              subst hji
              exact hpne (hbelow idx.toNat p hget hj)
            · rw [List.get?_set_ne _ _ (fun he => hji he.symm)] at hgj
              exact hbelow j q hgj hj
          · intro j q hgj hj
            by_cases hji : j = idx.toNat
            · subst hji
              rw [List.get?_set_eq_of_lt _ hlt] at hgj
              cases hgj
              exact le_refl 1
            · rw [List.get?_set_ne _ _ (fun he => hji he.symm)] at hgj
              exact habove j q hgj hj
      | emitDone =>
          rw [hcp] at hpc
          exfalso
          exact hpne (hpc p (List.get?_mem hget))
      | finished =>
          rw [hcp] at hpc
          exfalso
          exact hpne (hpc p (List.get?_mem hget))

/-- Invariant preservation across any tame step. -/
lemma TInv_step (th : Nat) (c c' : Config) (a : Act)
    (hs : stepFn th c a = some c') (hI : TInv c)
    (htame : ∀ idx ct bl, a = Act.upload idx ct bl →
      uploadMutates c idx ct bl = true → (pageStateAt c idx.toNat).rank ≤ 1) :
    TInv c' := by
  cases a with
  | pipe => exact TInv_pipeStep th c c' hs hI
  | fireTimeout =>
      cases hs
      exact hI
  | upload idx ct bl =>
      cases hs
      exact TInv_upload th c idx ct bl hI (htame idx ct bl rfl)

lemma validTrace_cons (th : Nat) (c : Config) (a : Act) (rest : List Act)
    (h : validTrace th c (a :: rest) = true) :
    ∃ c1, stepFn th c a = some c1 ∧ validTrace th c1 rest = true := by
  unfold validTrace runTrace at h
  cases hs : stepFn th c a with
  | none =>
      rw [hs] at h
      cases h
  | some c1 =>
      rw [hs] at h
      exact ⟨c1, rfl, h⟩

lemma tameTrace_cons (th : Nat) (c : Config) (a : Act) (rest : List Act)
    (h : tameTrace th c (a :: rest) = true) :
    (∀ idx ct bl, a = Act.upload idx ct bl → uploadMutates c idx ct bl = true →
      (pageStateAt c idx.toNat).rank ≤ 1) ∧
    (∀ c1, stepFn th c a = some c1 → tameTrace th c1 rest = true) := by
  unfold tameTrace at h
  rw [Bool.and_eq_true] at h
  constructor
  · intro idx ct bl ha hm
    subst ha
    have h1 := h.1
    rw [Bool.or_eq_true_iff] at h1
    rcases h1 with h1 | h1
    · exfalso
      rw [Bool.not_eq_true'] at h1
      rw [h1] at hm
      cases hm
    · exact of_decide_eq_true h1
  · intro c1 hs
    have h2 := h.2
    rw [hs] at h2
    exact h2

/-- The invariant holds in every configuration reachable by a tame trace. -/
lemma runTrace_TInv (th : Nat) : ∀ (acts : List Act) (c c' : Config),
    runTrace th c acts = some c' → tameTrace th c acts = true → TInv c →
    TInv c' := by
  intro acts
  induction acts with
  | nil =>
      intro c c' h _ hI
      cases h
      exact hI
  | cons a rest ih =>
      intro c c' h htm hI
      unfold runTrace at h
      cases hs : stepFn th c a with
      | none =>
          rw [hs] at h
          cases h
      | some c1 =>
          rw [hs] at h
          have hco := tameTrace_cons th c a rest htm
          have hI1 := TInv_step th c c1 a hs hI hco.1
          exact ih c1 c' h (hco.2 c1 hs) hI1

/-- The invariant of a freshly created job. -/
lemma TInv_init (jobId : String) (total : Nat) : TInv (initConfig jobId total) := by
  refine ⟨by simp [initConfig, mkJob], ?_, ?_⟩
  · show (mkJob jobId total).done = countReady (mkJob jobId total).pages
    rw [countReady_mkJob]
    rfl
  · show pagesEarly (mkJob jobId total).pages
    intro p hp
    rcases List.mem_map.mp hp with ⟨i, _, rfl⟩
    simp [PState.rank]

/-- States related by one step of any page, as a relation on whole page
lists. -/
def pagesFwd (P1 P2 : List Page) : Prop :=
  ∀ i, fwd ((P1.getD i defaultPage).state) ((P2.getD i defaultPage).state) = true

lemma pagesFwd_refl (P : List Page) : pagesFwd P P := fun _ => fwd_refl _

lemma pagesFwd_set (P : List Page) (i0 : Nat) (p a : Page)
    (hget : P.get? i0 = some p) (hf : fwd p.state a.state = true) :
    pagesFwd P (P.set i0 a) := by
  intro i
  by_cases hi : i = i0
  · subst hi
    obtain ⟨hlt, _⟩ := List.get?_eq_some.mp hget
    have h1 : (P.set i a).getD i defaultPage = a := by
      rw [List.getD_eq_get?, List.get?_set_eq_of_lt _ hlt]
      rfl
    have h2 : P.getD i defaultPage = p := by
      rw [List.getD_eq_get?, hget]
      rfl
    rw [h1, h2]
    exact hf
  · have h1 : (P.set i0 a).getD i defaultPage = P.getD i defaultPage := by
      rw [List.getD_eq_get?, List.getD_eq_get?,
        List.get?_set_ne _ _ (fun he => hi he.symm)]
    rw [h1]
    exact fwd_refl _

lemma fwd_to_extracting {s : PState} (h : s.rank ≤ 1) :
    fwd s PState.extracting = true := by
  cases s
  · rfl
  · rfl
  · simp [PState.rank] at h
  · simp [PState.rank] at h
  · simp [PState.rank] at h

/-- Any tame step only moves page states forward. -/
lemma step_fwd (th : Nat) (c c' : Config) (a : Act)
    (hs : stepFn th c a = some c') (hI : TInv c)
    (htame : ∀ idx ct bl, a = Act.upload idx ct bl →
      uploadMutates c idx ct bl = true → (pageStateAt c idx.toNat).rank ≤ 1) :
    ∀ i, fwd (pageStateAt c i) (pageStateAt c' i) = true := by
  suffices h : pagesFwd c.job.pages c'.job.pages by
    intro i
    exact h i
  cases a with
  | fireTimeout =>
      cases hs
      exact pagesFwd_refl _
  | upload idx ct bl =>
      cases hs
      rcases uploadPage_cases th c.job idx ct bl with ⟨hp, _⟩ | ⟨hct, hbl, p, hlk, hp, _⟩
      · show pagesFwd c.job.pages (uploadPage th c.job idx ct bl).job.pages
        rw [hp]
        exact pagesFwd_refl _
      · show pagesFwd c.job.pages (uploadPage th c.job idx ct bl).job.pages
        rw [hp]
        have hget := pageLookup_get? c.job idx p hlk
        have hm : uploadMutates c idx ct bl = true := by
          unfold uploadMutates
          rw [hct, hlk]
          simp [hbl]
        have hrank : p.state.rank ≤ 1 := by
          have := htame idx ct bl rfl hm
          rwa [pageStateAt_eq c idx.toNat p hget] at this
        exact pagesFwd_set _ _ p _ hget (fwd_to_extracting hrank)
  | pipe =>
      obtain ⟨job, pc, tout⟩ := c
      obtain ⟨hlen, hdone, hpc⟩ := hI
      dsimp only at hlen hdone hpc
      replace hs : pipeStep th ⟨job, pc, tout⟩ = some c' := hs
      cases pc with
      | emitQueued k =>
          unfold pipeStep at hs
          simp only [] at hs
          split at hs <;> cases hs <;> exact pagesFwd_refl _
      | waitStart =>
          unfold pipeStep at hs
          simp only [] at hs
          split at hs
          · cases hs
            exact pagesFwd_refl _
          · cases hs
      | procExtract i =>
          unfold pipeStep at hs
          simp only [] at hs
          cases hg : job.pages.get? i with
          | none => rw [hg] at hs; cases hs
          | some p =>
              rw [hg] at hs
              cases hs
              obtain ⟨_, _, hat, _⟩ := hpc
              exact pagesFwd_set _ _ p _ hg (fwd_to_extracting (hat p hg))
      | procTts i =>
          unfold pipeStep at hs
          simp only [] at hs
          cases hg : job.pages.get? i with
          | none => rw [hg] at hs; cases hs
          | some p =>
              rw [hg] at hs
              cases hs
              obtain ⟨_, _, hat, _⟩ := hpc
              have hx : p.state = PState.extracting := hat p hg
              refine pagesFwd_set _ _ p _ hg ?_
              rw [hx]
              rfl
      | procReady i =>
          unfold pipeStep at hs
          simp only [] at hs
          cases hg : job.pages.get? i with
          | none => rw [hg] at hs; cases hs
          | some p =>
              rw [hg] at hs
              cases hs
              obtain ⟨_, _, hat, _⟩ := hpc
              have hx : p.state = PState.tts := hat p hg
              refine pagesFwd_set _ _ p _ hg ?_
              rw [hx]
              rfl
      | procProgress i =>
          unfold pipeStep at hs
          simp only [] at hs
          cases hs
          exact pagesFwd_refl _
      | emitDone =>
          unfold pipeStep at hs
          simp only [] at hs
          cases hs
          exact pagesFwd_refl _
      | finished =>
          unfold pipeStep at hs
          simp only [] at hs
          cases hs

lemma stateSeq_head (th : Nat) (c : Config) (acts : List Act) (i : Nat) :
    ∃ tl, stateSeq th c acts i = pageStateAt c i :: tl := by
  cases acts with
  | nil => exact ⟨[], rfl⟩
  | cons a rest => exact ⟨_, rfl⟩

/-- Under the invariant, every tame valid trace yields a forward-only state
sequence for every page index. -/
lemma chain_fwd (th : Nat) : ∀ (acts : List Act) (c : Config) (i : Nat),
    TInv c → validTrace th c acts = true → tameTrace th c acts = true →
    List.Chain' (fun s t => fwd s t = true) (stateSeq th c acts i) := by
  intro acts
  induction acts with
  | nil =>
      intro c i _ _ _
      simp [stateSeq]
  | cons a rest ih =>
      intro c i hI hv htm
      obtain ⟨c1, hs, hv1⟩ := validTrace_cons th c a rest hv
      have hco := tameTrace_cons th c a rest htm
      have hI1 := TInv_step th c c1 a hs hI hco.1
      have hcons : stateSeq th c (a :: rest) i =
          pageStateAt c i :: (match stepFn th c a with
            | some c2 => stateSeq th c2 rest i
            | none => []) := rfl
      have hseq : stateSeq th c (a :: rest) i =
          pageStateAt c i :: stateSeq th c1 rest i := by
        rw [hcons, hs]
      rw [hseq]
      obtain ⟨tl, htl⟩ := stateSeq_head th c1 rest i
      have htail := ih c1 i hI1 hv1 (hco.2 c1 hs)
      rw [htl] at htail ⊢
      exact List.chain'_cons.mpr ⟨step_fwd th c c1 a hs hI hco.1 i, htail⟩

/-- A trace whose final step moves some page backward has a state sequence
that is not forward-only. -/
lemma chain_break (th : Nat) : ∀ (acts1 : List Act) (c c1 c2 : Config) (a : Act)
    (i : Nat), runTrace th c acts1 = some c1 → stepFn th c1 a = some c2 →
    fwd (pageStateAt c1 i) (pageStateAt c2 i) = false →
    ¬ List.Chain' (fun s t => fwd s t = true) (stateSeq th c (acts1 ++ [a]) i) := by
  intro acts1
  induction acts1 with
  | nil =>
      intro c c1 c2 a i hrun hstep hfwd hch
      cases hrun
      have hcons : stateSeq th c ([] ++ [a]) i =
          pageStateAt c i :: (match stepFn th c a with
            | some c2 => stateSeq th c2 [] i
            | none => []) := rfl
      have hred : (match stepFn th c a with
          | some c3 => stateSeq th c3 [] i
          | none => ([] : List PState)) = [pageStateAt c2 i] := by
        rw [hstep]
        rfl
      rw [hcons, hred] at hch
      have hx := (List.chain'_cons.mp hch).1
      rw [hfwd] at hx
      cases hx
  | cons b rest ih =>
      intro c c1 c2 a i hrun hstep hfwd hch
      unfold runTrace at hrun
      cases hs : stepFn th c b with
      | none =>
          rw [hs] at hrun
          cases hrun
      | some cmid =>
          rw [hs] at hrun
          have hcons : stateSeq th c (b :: (rest ++ [a])) i =
              pageStateAt c i :: (match stepFn th c b with
                | some c3 => stateSeq th c3 (rest ++ [a]) i
                | none => []) := rfl
          have hred : (match stepFn th c b with
              | some c3 => stateSeq th c3 (rest ++ [a]) i
              | none => ([] : List PState)) = stateSeq th cmid (rest ++ [a]) i := by
            rw [hs]
          rw [List.cons_append, hcons, hred] at hch
          exact ih cmid c1 c2 a i hrun hstep hfwd hch.tail

/-- The prefix of the C2 counterexample trace: the pipeline emits the 20
initial `queued` statuses, reaches the rolling-start wait, the 60-second
timeout fires, and the pipeline carries page 0 through `extracting`, `tts`
and `ready`. -/
def exPreC2 : List Act :=
  List.replicate 21 Act.pipe ++
    [Act.fireTimeout, Act.pipe, Act.pipe, Act.pipe, Act.pipe]

/-- The configuration reached by `exPreC2` (page 0 is `ready`). -/
def exMidC2 : Config :=
  (runTrace 4 (initConfig "j" 20) exPreC2).getD (initConfig "j" 20)

/-- The configuration after a late `upload_page` for page 0 hits
`exMidC2`. -/
def exEndC2 : Config :=
  (stepFn 4 exMidC2 (Act.upload 0 "image/png" 1)).getD exMidC2

/-- The full C2 counterexample trace: `exPreC2` followed by the late
upload. -/
def exActsRegress : List Act := exPreC2 ++ [Act.upload 0 "image/png" 1]

set_option maxHeartbeats 1000000 in
/-- C2 (counterexample): a valid interleaving of the pipeline task and
`upload_page` calls on a standard 20-page job in which page 0 reaches
`ready` and is then reset to `extracting` by a late upload: its state
sequence regresses, refuting "no operation ever moves a page's state
backward". -/
theorem page_state_regression_counterexample :
    validTrace 4 (initConfig "j" 20) exActsRegress = true ∧
    pageStateAt exMidC2 0 = PState.ready ∧
    pageStateAt exEndC2 0 = PState.extracting ∧
    ¬ List.Chain' (fun s t => fwd s t = true)
        (stateSeq 4 (initConfig "j" 20) exActsRegress 0) := by
  refine ⟨by decide, by decide, by decide, ?_⟩
  have h1 : runTrace 4 (initConfig "j" 20) exPreC2 = some exMidC2 := rfl
  have h2 : stepFn 4 exMidC2 (Act.upload 0 "image/png" 1) = some exEndC2 := rfl
  have h3 : fwd (pageStateAt exMidC2 0) (pageStateAt exEndC2 0) = false := by decide
  exact chain_break 4 exPreC2 (initConfig "j" 20) exMidC2 exEndC2
    (Act.upload 0 "image/png" 1) 0 h1 h2 h3

/-- C2 (amended): a mutating `upload_page` call unconditionally resets its
page to `extracting` — a backward move when the page has already reached
`tts` or `ready`; in every valid interleaving in which each mutating upload
targets a page still in `queued` or `extracting` (a tame trace), every
page's state sequence is forward-only: a subsequence of
`queued, extracting, tts, ready` (the `error` state is never assigned by
this code) with no regression. -/
theorem page_states_forward (th total : Nat) (jobId : String) (acts : List Act)
    (i : Nat) (idx : Int) (ct : String) (bl : Nat) (c : Config)
    (hv : validTrace th (initConfig jobId total) acts = true)
    (htm : tameTrace th (initConfig jobId total) acts = true) :
    List.Chain' (fun s t => fwd s t = true)
      (stateSeq th (initConfig jobId total) acts i) ∧
    (uploadMutates c idx ct bl = true →
      pageStateAt { c with job := (uploadPage th c.job idx ct bl).job } idx.toNat =
        PState.extracting) := by
  constructor
  · exact chain_fwd th acts (initConfig jobId total) i (TInv_init jobId total) hv htm
  · intro hm
    unfold uploadMutates at hm
    rw [Bool.and_eq_true, Bool.and_eq_true] at hm
    obtain ⟨⟨hct, hbl⟩, hlk⟩ := hm
    obtain ⟨p, hp⟩ := Option.isSome_iff_exists.mp hlk
    have hget := pageLookup_get? c.job idx p hp
    obtain ⟨hlt, _⟩ := List.get?_eq_some.mp hget
    have hbl' : ¬ bl > MAX_PNG_BYTES := by
      have := of_decide_eq_true hbl
      omega
    have hres : (uploadPage th c.job idx ct bl).job.pages =
        c.job.pages.set idx.toNat { p with state := PState.extracting } := by
      unfold uploadPage
      rw [if_neg (by rw [hct]; intro he; cases he)]
      rw [if_neg hbl']
      simp only []
      have hpl2 : pageLookup
          { c.job with
            uploadedPages := insert idx c.job.uploadedPages
            magiStartEvent :=
              if min th c.job.total ≤ (insert idx c.job.uploadedPages).card then true
              else c.job.magiStartEvent } idx = some p := hp
      rw [hpl2]
    show ((uploadPage th c.job idx ct bl).job.pages.getD idx.toNat
      defaultPage).state = PState.extracting
    rw [hres, List.getD_eq_get?, List.get?_set_eq_of_lt _ hlt]
    rfl

/-- The tame trace used by the C2/C3 witnesses: on a two-page job
(threshold 4, so `min(threshold, total) = 2`) both pages are uploaded first,
then the pipeline runs to completion. -/
def exTameActs : List Act :=
  [Act.upload 0 "image/png" 1, Act.upload 1 "image/png" 1] ++
    List.replicate 13 Act.pipe

/-- C2 (witness): `page_states_forward` on the concrete tame trace
`exTameActs`: page 0's state sequence is forward-only, and a mutating upload
resets its page to `extracting`. -/
theorem page_states_forward_witness :
    validTrace 4 (initConfig "w" 2) exTameActs = true ∧
    tameTrace 4 (initConfig "w" 2) exTameActs = true ∧
    (List.Chain' (fun s t => fwd s t = true)
        (stateSeq 4 (initConfig "w" 2) exTameActs 0) ∧
      (uploadMutates (initConfig "w" 2) 0 "image/png" 1 = true →
        pageStateAt
          { initConfig "w" 2 with
            job := (uploadPage 4 (initConfig "w" 2).job 0 "image/png" 1).job } 0 =
          PState.extracting)) :=
  ⟨by decide, by decide,
   page_states_forward 4 2 "w" exTameActs 0 0 "image/png" 1 (initConfig "w" 2)
     (by decide) (by decide)⟩

/-- Reading `done` and the ready count off a composed snapshot agrees with
reading them off the job, whenever the page dict has exactly `total`
keys. -/
lemma snapCountReady_composeSnapshot (j : JobState) (h : j.pages.length = j.total) :
    snapCountReady (composeSnapshot j) = countReady j.pages := by
  have hpages : (composeSnapshot j).pages =
      j.pages.map (fun p =>
        ({ index := p.index, state := p.state, audio := p.audio,
            reason := p.reason } : SnapPage)) := by
    show (List.range j.total).map (fun i =>
        ({ index := (j.pages.getD i defaultPage).index,
            state := (j.pages.getD i defaultPage).state,
            audio := (j.pages.getD i defaultPage).audio,
            reason := (j.pages.getD i defaultPage).reason } : SnapPage)) = _
    rw [← h]
    exact range_map_getD j.pages defaultPage (fun p =>
      ({ index := p.index, state := p.state, audio := p.audio,
          reason := p.reason } : SnapPage))
  unfold snapCountReady
  rw [hpages, List.countP_map]
  rfl

/-- C3 (amended): in every interleaving whose uploads are tame (no upload
hits a page already in `tts` or `ready`), the snapshot composed at any
suspension point has `done` equal to its number of `ready` pages; a late
upload on a `ready` page breaks this, making `done` exceed the ready
count. -/
theorem done_matches_ready (th total : Nat) (jobId : String) (acts : List Act)
    (c' : Config)
    (hrun : runTrace th (initConfig jobId total) acts = some c')
    (htm : tameTrace th (initConfig jobId total) acts = true) :
    (composeSnapshot c'.job).done = snapCountReady (composeSnapshot c'.job) := by
  have hI := runTrace_TInv th acts _ c' hrun htm (TInv_init jobId total)
  obtain ⟨hlen, hdone, _⟩ := hI
  rw [show (composeSnapshot c'.job).done = c'.job.done from rfl]
  rw [snapCountReady_composeSnapshot c'.job hlen]
  exact hdone

/-- C3 (witness): `done_matches_ready` on the concrete tame trace: the final
snapshot of the completed two-page job reports `done = 2` with two ready
pages. -/
def exCfgC3W : Config :=
  (runTrace 4 (initConfig "w3" 2) exTameActs).getD (initConfig "w3" 2)

theorem done_matches_ready_witness :
    runTrace 4 (initConfig "w3" 2) exTameActs = some exCfgC3W ∧
    tameTrace 4 (initConfig "w3" 2) exTameActs = true ∧
    (composeSnapshot exCfgC3W.job).done =
      snapCountReady (composeSnapshot exCfgC3W.job) :=
  ⟨by decide, by decide,
   done_matches_ready 4 2 "w3" exTameActs exCfgC3W (by decide) (by decide)⟩

lemma runTrace_snoc (th : Nat) : ∀ (acts : List Act) (c : Config) (a : Act),
    runTrace th c (acts ++ [a]) =
      match runTrace th c acts with
      | some c1 => stepFn th c1 a
      | none => none := by
  intro acts
  induction acts with
  | nil =>
      intro c a
      show (match stepFn th c a with
          | some c1 => runTrace th c1 []
          | none => none) = stepFn th c a
      cases stepFn th c a <;> rfl
  | cons b rest ih =>
      intro c a
      have h1 : runTrace th c ((b :: rest) ++ [a]) =
          match stepFn th c b with
          | some c1 => runTrace th c1 (rest ++ [a])
          | none => none := rfl
      have h2 : runTrace th c (b :: rest) =
          match stepFn th c b with
          | some c1 => runTrace th c1 rest
          | none => none := rfl
      rw [h1, h2]
      cases stepFn th c b with
      | none => rfl
      | some c1 => exact ih c1 a

/-- Prefix of the C3 counterexample trace: `exPreC2` plus one more pipeline
block, so the pipeline stands at the `progress` emission for page 0 with
`done = 1` and page 0 `ready`. -/
def exPreC3 : List Act := exPreC2 ++ [Act.pipe]

/-- The configuration reached by `exPreC3`. -/
def exMidC3 : Config :=
  (runTrace 4 (initConfig "j" 20) exPreC3).getD (initConfig "j" 20)

/-- The configuration right after a late `upload_page` for the ready page 0
hits `exMidC3` — the point at which that call persists a snapshot. -/
def exSnapCfg : Config :=
  (stepFn 4 exMidC3 (Act.upload 0 "image/png" 1)).getD exMidC3

set_option maxHeartbeats 1000000 in
/-- C3 (counterexample): after the pipeline has completed page 0
(`done = 1`) a late upload resets page 0 to `extracting`; the snapshot
composed at that very suspension point — the one `upload_page` persists —
reports `done = 1` but zero `ready` pages, refuting "done equals the number
of ready pages in the same observation". -/
theorem done_ready_mismatch_counterexample :
    runTrace 4 (initConfig "j" 20) (exPreC3 ++ [Act.upload 0 "image/png" 1]) =
      some exSnapCfg ∧
    (composeSnapshot exSnapCfg.job).done = 1 ∧
    snapCountReady (composeSnapshot exSnapCfg.job) = 0 := by
  refine ⟨?_, by decide, by decide⟩
  have h1 : runTrace 4 (initConfig "j" 20) exPreC3 = some exMidC3 := rfl
  have h2 : stepFn 4 exMidC3 (Act.upload 0 "image/png" 1) = some exSnapCfg := rfl
  rw [runTrace_snoc 4 exPreC3 (initConfig "j" 20) (Act.upload 0 "image/png" 1), h1]
  exact h2

end Tanoshi
